import Mathlib

/-!
Verification of the cluster-autoscaler decision core against its
natural-language specification.

The development shallowly embeds the relevant Go sources:

* `cluster-autoscaler/simulator/cluster.go` — `FindNodesToRemove`,
  `CalculateUtilization`, `findPlaceFor` (namespace `Simulator`);
* the GCE manager (`gce` package) — `RegisterMig`, `UnregisterMig`,
  `GetMigForInstance`, `regenerateCache`, `fetchAllNodePoolsGkeNapImpl`
  (namespace `Gce`);
* the unneeded-node candidate capping of `scale_down.go`, whose source is
  not part of the corpus (only its tests are); it is modelled from the
  spec (namespace `ScaleDownSpec`).

Go maps are embedded as association lists where assignment replaces the
first binding of the key, pointer-mutation of shared node objects is
embedded as an explicit heap keyed by node name that the top-level
functions return, fallible operations return `Option`/`Except`, and the
external collaborators (predicate checker, drain helpers, cloud API) are
universally-quantified oracle parameters.
-/

set_option autoImplicit false

namespace Simulator

/-- Resource names read by the utilization code: `cluster.go` queries only
CPU and memory; other map keys are carried but never read. -/
inductive ResourceName where
  | cpu
  | memory
  | other (s : String)
  deriving DecidableEq, Repr

/-- A Kubernetes `ResourceList` (resource name → quantity), with quantities
embedded as their integer milli-values. -/
abbrev ResourceList := List (ResourceName × Int)

/-- First-binding lookup in a resource list (Go map read). -/
def lookupRes (l : ResourceList) (r : ResourceName) : Option Int :=
  (l.find? (fun p => p.1 = r)).map (fun p => p.2)

/-- `Node.Status`: the two fields `cluster.go` touches. -/
structure NodeStatus where
  capacity : ResourceList
  allocatable : ResourceList
  deriving DecidableEq, Repr

/-- A node: name plus status.  The status of the caller's shared node
objects lives in the explicit `Heap` below; this record is the immutable
input value. -/
structure Node where
  name : String
  status : NodeStatus
  deriving DecidableEq, Repr

/-- A container: only its resource requests are read. -/
structure Container where
  requests : ResourceList
  deriving DecidableEq, Repr

/-- A pod: identity (`Namespace`/`Name`), its `Spec.NodeName`, and its
containers. -/
structure Pod where
  ns : String
  name : String
  nodeName : String
  containers : List Container
  deriving DecidableEq, Repr

/-- `fmt.Sprintf("%s/%s", pod.Namespace, pod.Name)` from `findPlaceFor`. -/
def podKey (pod : Pod) : String :=
  pod.ns ++ "/" ++ pod.name

/-- Sum of the pods' container requests of one resource
(`podsRequest.Add(resourceValue)` loop of
`calculateUtilizationOfResource`); a missing request entry contributes
nothing. -/
def podsRequest (pods : List Pod) (r : ResourceName) : Int :=
  (pods.map (fun pod =>
    (pod.containers.map (fun c => (lookupRes c.requests r).getD 0)).sum)).sum

/-- `calculateUtilizationOfResource` of `cluster.go`: requested sum over
capacity, an error when the capacity entry is absent or its milli-value is
zero.  Go's `float64` division of the two integer milli-values is embedded
as exact rational division. -/
def calculateUtilizationOfResource (node : Node) (nodeInfoPods : List Pod)
    (r : ResourceName) : Except String ℚ :=
  match lookupRes node.status.capacity r with
  | none => .error "failed to get resource capacity"
  | some cap =>
      if cap = 0 then .error "resource capacity is 0"
      else .ok ((podsRequest nodeInfoPods r : ℚ) / (cap : ℚ))

/-- `CalculateUtilization` of `cluster.go`: the maximum of the CPU and
memory fractions; the first error aborts. -/
def CalculateUtilization (node : Node) (nodeInfoPods : List Pod) :
    Except String ℚ :=
  match calculateUtilizationOfResource node nodeInfoPods .cpu with
  | .error e => .error e
  | .ok cpu =>
      match calculateUtilizationOfResource node nodeInfoPods .memory with
      | .error e => .error e
      | .ok mem => .ok (max cpu mem)

end Simulator

namespace Simulator

/-- A fixed node used to instantiate the utilization theorems: capacity
2000 milli-CPU and 4000 (milli-scaled) memory. -/
def utilNode : Node :=
  { name := "n1",
    status := { capacity := [(.cpu, 2000), (.memory, 4000)],
                allocatable := [(.cpu, 2000), (.memory, 4000)] } }

/-- Two fixed pods requesting 100+300 milli-CPU and 1000 memory in total. -/
def utilPods : List Pod :=
  [ { ns := "default", name := "p1", nodeName := "n1",
      containers := [{ requests := [(.cpu, 100), (.memory, 1000)] }] },
    { ns := "default", name := "p2", nodeName := "n1",
      containers := [{ requests := [(.cpu, 300)] }] } ]

/-- A node whose memory capacity entry is absent. -/
def utilNodeNoMem : Node :=
  { name := "n2",
    status := { capacity := [(.cpu, 2000)], allocatable := [(.cpu, 2000)] } }

/-- Go map read: value of the first binding of `k`. -/
def assocGet {β : Type} (l : List (String × β)) (k : String) : Option β :=
  (l.find? (fun p => p.1 = k)).map (fun p => p.2)

/-- Go map assignment: replace the first binding of `k` when present,
append it otherwise. -/
def assocSet {β : Type} : List (String × β) → String → β → List (String × β)
  | [], k, v => [(k, v)]
  | p :: rest, k, v =>
      if p.1 = k then (k, v) :: rest else p :: assocSet rest k v

/-- The caller's shared, mutable node objects, keyed by node name.
`findPlaceFor` assigns `Status.Allocatable` through the pointers held in
the node infos, so the heap is threaded through the simulation and
returned to the caller. -/
abbrev Heap := List (String × NodeStatus)

/-- The heap at the start of `FindNodesToRemove`: the caller's `allNodes`
objects, untouched. -/
def initHeap (allNodes : List Node) : Heap :=
  allNodes.map (fun nd => (nd.name, nd.status))

/-- The statement `nodeInfo.Node().Status.Allocatable =
nodeInfo.Node().Status.Capacity` of `tryNodeForPod`, acting on the shared
node object named `n`. -/
def heapSetAlloc (h : Heap) (n : String) : Heap :=
  h.map (fun p =>
    if p.1 = n then (p.1, { p.2 with allocatable := p.2.capacity }) else p)

/-- `newHints` / `oldHints`: pod key → node name. -/
abbrev Hints := List (String × String)

/-- The pods `schedulercache.CreateNodeNameToInfoMap` groups under node
name `n` (the base `nodeNameToNodeInfo` entry for `n`). -/
def podsOn (pods : List Pod) (n : String) : List Pod :=
  pods.filter (fun p => p.nodeName = n)

/-- Whether `nodeNameToNodeInfo` has an entry for `n`: the map is built
from the pods, so an entry exists exactly when some pod is on `n`. -/
def hasInfo (pods : List Pod) (n : String) : Bool :=
  pods.any (fun p => p.nodeName = n)

/-- The node object `SetNode` attached to the info of `n`: the first node
of `allNodes` with that name, if any.  When the info exists but no such
node does, `nodeInfo.Node()` is nil and `tryNodeForPod` dereferences it. -/
def infoNode (allNodes : List Node) (n : String) : Option Node :=
  allNodes.find? (fun nd => nd.name = n)

/-- The external predicate checker (`predicateChecker.CheckPredicates`):
given the pod, the destination node's name and the pods already on it
(including tentative placements), fit or no-fit.  `cluster.go` consumes it
as a black box. -/
abbrev Pred := Pod → String → List Pod → Bool

/-- The mutable state visible inside one `findPlaceFor` call:
`newNodeInfos` (the per-candidate overlay of tentative placements),
`newHints`, and the shared node heap. -/
structure PlaceState where
  overlay : List (String × List Pod)
  hints : Hints
  heap : Heap

/-- `tryNodeForPod` of `findPlaceFor`.  Looks the node up in the overlay
first, then in the base infos; dereferencing a nil node (info present but
node absent from `allNodes`) is the crash case `none`.  When the node is
found its `Allocatable` is overwritten with `Capacity` whether or not the
predicate passes; on fit, the overlay and the hints are extended. -/
def tryNodeForPod (pred : Pred) (pods0 : List Pod) (allNodes : List Node)
    (st : PlaceState) (nodename : String) (pod : Pod) :
    Option (Bool × PlaceState) :=
  let infoPods? : Option (List Pod) :=
    match assocGet st.overlay nodename with
    | some ps => some ps
    | none => if hasInfo pods0 nodename then some (podsOn pods0 nodename) else none
  match infoPods? with
  | none => some (false, st)
  | some ps =>
      match infoNode allNodes nodename with
      | none => none
      | some _ =>
          let heap1 := heapSetAlloc st.heap nodename
          if pred pod nodename ps then
            some (true,
              { overlay := assocSet st.overlay nodename (ps ++ [pod]),
                hints := assocSet st.hints (podKey pod) nodename,
                heap := heap1 })
          else some (false, { st with heap := heap1 })

/-- The `for _, node := range nodes` scan of `findPlaceFor`: skip the
banned node, stop at the first fit, thread the state through failed
tries. -/
def scanNodes (pred : Pred) (pods0 : List Pod) (allNodes : List Node)
    (banned : String) (pod : Pod) :
    List Node → PlaceState → Option (Bool × PlaceState)
  | [], st => some (false, st)
  | nd :: rest, st =>
      if nd.name = banned then scanNodes pred pods0 allNodes banned pod rest st
      else
        match tryNodeForPod pred pods0 allNodes st nd.name pod with
        | none => none
        | some (true, st1) => some (true, st1)
        | some (false, st1) => scanNodes pred pods0 allNodes banned pod rest st1

/-- The hint branch of the pod loop of `findPlaceFor`: when the previous
round hinted a node for this pod and it is not the node being removed, try
it; otherwise fall through with the state untouched. -/
def hintTry (pred : Pred) (pods0 : List Pod) (allNodes : List Node)
    (banned : String) (oldHints : Hints) (st : PlaceState) (pod : Pod) :
    Option (Bool × PlaceState) :=
  match assocGet oldHints (podKey pod) with
  | some hn =>
      if hn = banned then some (false, st)
      else tryNodeForPod pred pods0 allNodes st hn pod
  | none => some (false, st)

/-- The `for _, podptr := range pods` loop of `findPlaceFor`: clear the
pod's node name, try the hinted node (unless it is the node being
removed), otherwise scan `nodes`; a pod with no place returns failure with
the state as mutated so far. -/
def placePods (pred : Pred) (pods0 : List Pod) (allNodes : List Node)
    (banned : String) (oldHints : Hints) :
    List Pod → PlaceState → Option (Bool × PlaceState)
  | [], st => some (true, st)
  | pod0 :: rest, st =>
      match hintTry pred pods0 allNodes banned oldHints st
          { pod0 with nodeName := "" } with
      | none => none
      | some (true, st1) => placePods pred pods0 allNodes banned oldHints rest st1
      | some (false, st1) =>
          match scanNodes pred pods0 allNodes banned { pod0 with nodeName := "" }
              allNodes st1 with
          | none => none
          | some (true, st2) =>
              placePods pred pods0 allNodes banned oldHints rest st2
          | some (false, st2) => some (false, st2)

/-- `findPlaceFor` of `cluster.go`: starts from an empty `newNodeInfos`
overlay, shares `newHints` and the node heap with the caller, and reports
whether every pod found a place.  `FindNodesToRemove` passes `allNodes`
both as the scan list and as the source of the node infos. -/
def findPlaceFor (pred : Pred) (pods0 : List Pod) (allNodes : List Node)
    (banned : String) (oldHints : Hints) (podsToPlace : List Pod)
    (hints : Hints) (heap : Heap) : Option (Bool × Hints × Heap) :=
  match placePods pred pods0 allNodes banned oldHints podsToPlace
      { overlay := [], hints := hints, heap := heap } with
  | none => none
  | some (ok, st) => some (ok, st.hints, st.heap)

/-- `FastGetPodsToMove` (simulator drain helper, external to this file's
sources): from the node info's pods, the pods that must be relocated, or
an error. -/
abbrev PodsOracle := List Pod → Option (List Pod)

/-- `cmd.GetPodsForDeletionOnNodeDrain` (kubectl collaborator): from the
node name, the pods to relocate, or an error. -/
abbrev DrainOracle := String → Option (List Pod)

/-- The per-candidate pods-to-move computation of the `candidateloop`:
fast path requires the node info to exist and consults
`FastGetPodsToMove`; detailed path consults the drain collaborator.
`none` makes the loop skip the candidate. -/
def podsToMoveOf (fastCheck : Bool) (fastOracle : PodsOracle)
    (drainOracle : DrainOracle) (pods0 : List Pod) (node : Node) :
    Option (List Pod) :=
  if fastCheck then
    if hasInfo pods0 node.name then fastOracle (podsOn pods0 node.name) else none
  else drainOracle node.name

/-- The `candidateloop` of `FindNodesToRemove`: skip candidates whose
pods-to-move computation fails, append candidates whose pods all find a
place, and break once `maxCount` removable nodes are found. -/
def findLoop (pred : Pred) (pods0 : List Pod) (allNodes : List Node)
    (fastCheck : Bool) (fastOracle : PodsOracle) (drainOracle : DrainOracle)
    (oldHints : Hints) (maxCount : Nat) :
    List Node → List Node → Hints → Heap → Option (List Node × Hints × Heap)
  | [], result, hints, heap => some (result, hints, heap)
  | node :: rest, result, hints, heap =>
      match podsToMoveOf fastCheck fastOracle drainOracle pods0 node with
      | none =>
          findLoop pred pods0 allNodes fastCheck fastOracle drainOracle oldHints
            maxCount rest result hints heap
      | some ps =>
          match findPlaceFor pred pods0 allNodes node.name oldHints ps hints heap with
          | none => none
          | some (true, hints1, heap1) =>
              let result1 := result ++ [node]
              if maxCount ≤ result1.length then some (result1, hints1, heap1)
              else
                findLoop pred pods0 allNodes fastCheck fastOracle drainOracle
                  oldHints maxCount rest result1 hints1 heap1
          | some (false, hints1, heap1) =>
              findLoop pred pods0 allNodes fastCheck fastOracle drainOracle
                oldHints maxCount rest result hints1 heap1

/-- `FindNodesToRemove` of `cluster.go`.  Output: the removable nodes, the
new hints, the caller's node heap after the run (carrying the allocatable
overwrites), and the function's `finalError`, which the source returns as
a literal `nil`.  The outer `none` is the nil-pointer crash of
`tryNodeForPod` on an info whose node was never set. -/
def FindNodesToRemove (candidates allNodes : List Node) (pods : List Pod)
    (pred : Pred) (maxCount : Nat) (fastCheck : Bool)
    (fastOracle : PodsOracle) (drainOracle : DrainOracle) (oldHints : Hints) :
    Option (List Node × Hints × Heap × Option String) :=
  match findLoop pred pods allNodes fastCheck fastOracle drainOracle oldHints
      maxCount candidates [] [] (initHeap allNodes) with
  | none => none
  | some (result, hints, heap) => some (result, hints, heap, none)

/-- Success of one candidate evaluated on its own against the base state:
the pods-to-move computation succeeds and `findPlaceFor` places every pod,
starting from empty hints and the untouched heap.  Used to characterize
the loop. -/
def candidateOK (pred : Pred) (pods0 : List Pod) (allNodes : List Node)
    (fastCheck : Bool) (fastOracle : PodsOracle) (drainOracle : DrainOracle)
    (oldHints : Hints) (node : Node) : Bool :=
  match podsToMoveOf fastCheck fastOracle drainOracle pods0 node with
  | none => false
  | some ps =>
      match findPlaceFor pred pods0 allNodes node.name oldHints ps []
          (initHeap allNodes) with
      | none => false
      | some (ok, _, _) => ok

/-- `Status.Allocatable := Status.Capacity` on one node status. -/
def allocOverwrite (s : NodeStatus) : NodeStatus :=
  { capacity := s.capacity, allocatable := s.capacity }

/-- Whether `tryNodeForPod` finds an info for `n` — i.e. `n` is evaluated
as a placement destination — in state `st`. -/
def evaluatedDest (pods0 : List Pod) (st : PlaceState) (n : String) : Bool :=
  (assocGet st.overlay n).isSome || hasInfo pods0 n

/-- Frame relation between the heap before and after a run: every node
object is either untouched or exactly allocatable-overwritten. -/
def heapFrame (h0 h1 : Heap) : Prop :=
  List.Forall₂ (fun a b => b = a ∨ b = (a.1, allocOverwrite a.2)) h0 h1

/-- Fixture: a pod on node `a` that every destination accepts. -/
def exPodP1 : Pod := { ns := "default", name := "p1", nodeName := "a", containers := [] }

/-- Fixture: a pod on node `a` that no destination accepts. -/
def exPodP2 : Pod := { ns := "default", name := "p2", nodeName := "a", containers := [] }

/-- Fixture: a pod keeping node `b` non-empty so that `b` has a node
info and can receive pods. -/
def exPodQ : Pod := { ns := "default", name := "q", nodeName := "b", containers := [] }

/-- Fixture: the candidate node. -/
def exNodeA : Node :=
  { name := "a", status := { capacity := [(.cpu, 1000)], allocatable := [(.cpu, 500)] } }

/-- Fixture: the destination node. -/
def exNodeB : Node :=
  { name := "b", status := { capacity := [(.cpu, 1000)], allocatable := [(.cpu, 500)] } }

/-- Fixture predicate oracle: only the pod named `p1` fits anywhere. -/
def exPred : Pred := fun pod _ _ => pod.name == "p1"

/-- Fixture: the scheduled pods of the example cluster. -/
def exPods : List Pod := [exPodP1, exPodP2, exPodQ]

/-- Fixture pods-to-move oracle: only the pod named `p1` must move. -/
def exFastOracle : PodsOracle :=
  fun ps => some (ps.filter (fun p => p.name == "p1"))

/-- Fixture drain collaborator: always fails. -/
def exDrainOracle : DrainOracle := fun _ => none

/-- The hints of the example runs: `p1` placed on `b`. -/
def exRunHints : Hints := [("default/p1", "b")]

/-- The caller's node objects after the example runs: `b` was evaluated as
a destination, so its allocatable was overwritten with its capacity; `a`
is untouched. -/
def exRunHeap : Heap :=
  [("a", { capacity := [(.cpu, 1000)], allocatable := [(.cpu, 500)] }),
   ("b", { capacity := [(.cpu, 1000)], allocatable := [(.cpu, 1000)] })]

end Simulator

namespace Gce

/-- Identity of a MIG or of an instance: `{Project, Zone, Name}`. -/
structure GceRef where
  project : String
  zone : String
  name : String
  deriving DecidableEq, Repr

/-- The optional creation `spec` of an autoprovisioned Mig (machine type
and labels), carried but not interpreted here. -/
structure MigSpec where
  machineType : String
  labels : List (String × String)
  deriving DecidableEq, Repr

/-- The `Mig` struct.  `gceManager` is the embedded back-reference to the
owning `gceManagerImpl`; it is embedded as an abstract manager identity,
where distinct identities stand for manager objects that are not deeply
equal (e.g. managers with different project ids), so that
`reflect.DeepEqual` on two `Mig` values compares this field like every
other. -/
structure Mig where
  gceRef : GceRef
  gceManager : Nat
  exist : Bool
  autoprovisioned : Bool
  nodePoolName : String
  minSize : Int
  maxSize : Int
  spec : Option MigSpec
  deriving DecidableEq, Repr

/-- `reflect.DeepEqual(oldMig, mig)` over the two pointed-to `Mig`
structs: field-wise deep equality of the whole struct, the `gceManager`
back-reference included. -/
def migDeepEqual (a b : Mig) : Bool :=
  decide (a = b)

/-- `migInformation`: registered config plus the cached `basename`. -/
structure MigInformation where
  config : Mig
  basename : String
  deriving DecidableEq, Repr

/-- The mutable manager state the claims touch: the registered list and
the instance → Mig ownership cache.  `managerId` is this manager's own
identity, used as the back-reference of Migs it constructs. -/
structure Manager where
  managerId : Nat
  migs : List MigInformation
  migCache : List (GceRef × Mig)
  deriving DecidableEq, Repr

/-- Cache read (Go map read keyed by `GceRef`). -/
def cacheGet (l : List (GceRef × Mig)) (k : GceRef) : Option Mig :=
  (l.find? (fun p => p.1 = k)).map (fun p => p.2)

/-- Cache write (Go map assignment keyed by `GceRef`): replace the first
binding when present, append otherwise. -/
def cacheSet : List (GceRef × Mig) → GceRef → Mig → List (GceRef × Mig)
  | [], k, v => [(k, v)]
  | p :: rest, k, v =>
      if p.1 = k then (k, v) :: rest else p :: cacheSet rest k v

/-- The autoscaling block of a node pool. -/
structure NodePoolAutoscaling where
  enabled : Bool
  autoprovisioned : Bool
  minNodeCount : Int
  maxNodeCount : Int
  deriving DecidableEq, Repr

/-- A node pool as reported by the GKE listing: name, optional
autoscaling block, and the backing instance-group URLs. -/
structure NodePool where
  name : String
  autoscaling : Option NodePoolAutoscaling
  instanceGroupUrls : List String
  deriving DecidableEq, Repr

/-- The cloud collaborator, consumed as an abstract contract: per group,
the base instance name and the parsed member instance identities (a
listing failure or a member-URL parse failure is `none`); the node-pool
listing; and `parseGceUrl` for instance-group URLs (its source is not in
the corpus, so it stays an oracle). -/
structure Cloud where
  baseInstanceName : GceRef → Option String
  listManagedInstances : GceRef → Option (List GceRef)
  listNodePools : Option (List NodePool)
  parseIgUrl : String → Option GceRef

/-- The scan of `RegisterMig` over the registered list: at the first entry
with the argument's identity, compare configs with `reflect.DeepEqual`
and replace the entry when they differ; `none` when no entry has the
identity. -/
def registerScan (mig : Mig) :
    List MigInformation → Option (Bool × List MigInformation)
  | [] => none
  | mi :: rest =>
      if mi.config.gceRef = mig.gceRef then
        if migDeepEqual mi.config mig then some (false, mi :: rest)
        else some (true, { mi with config := mig } :: rest)
      else (registerScan mig rest).map (fun p => (p.1, mi :: p.2))

/-- `RegisterMig`: update-in-place of the first entry with the same
identity when the configs differ deeply, otherwise report no change;
append a fresh entry (empty basename) for a new identity.  The template
precomputation that follows a fresh registration only logs on failure and
mutates no manager state, so it has no embedding. -/
def RegisterMig (m : Manager) (mig : Mig) : Bool × Manager :=
  match registerScan mig m.migs with
  | some (b, migs1) => (b, { m with migs := migs1 })
  | none => (true, { m with migs := m.migs ++ [{ config := mig, basename := "" }] })

/-- `UnregisterMig`: drop every entry with the argument's identity,
report whether one existed. -/
def UnregisterMig (m : Manager) (toBeRemoved : Mig) : Bool × Manager :=
  let found := m.migs.any (fun mi => mi.config.gceRef = toBeRemoved.gceRef)
  (found, { m with migs := m.migs.filter (fun mi => ¬ mi.config.gceRef = toBeRemoved.gceRef) })

/-- `updateMigBasename`: set the basename of every entry with the given
identity. -/
def updateMigBasename (m : Manager) (ref : GceRef) (basename : String) :
    Manager :=
  { m with migs := m.migs.map (fun mi =>
      if mi.config.gceRef = ref then { mi with basename := basename } else mi) }

/-- The loop of `regenerateCache` over the snapshot of registered groups:
refresh each basename, then pour the group's parsed member instances into
the new cache.  A collaborator failure aborts, keeping the basenames
already refreshed and discarding the partial new cache. -/
def regenLoop (cloud : Cloud) :
    List MigInformation → Manager → List (GceRef × Mig) →
    Manager × Option (List (GceRef × Mig))
  | [], m, acc => (m, some acc)
  | mi :: rest, m, acc =>
      match cloud.baseInstanceName mi.config.gceRef with
      | none => (m, none)
      | some bn =>
          let m1 := updateMigBasename m mi.config.gceRef bn
          match cloud.listManagedInstances mi.config.gceRef with
          | none => (m1, none)
          | some insts =>
              regenLoop cloud rest m1
                (insts.foldl (fun a ref => cacheSet a ref mi.config) acc)

/-- `regenerateCache`: build a fresh cache from the live listings of every
registered group and swap it in atomically on success; on failure the old
cache survives.  The `Bool` is success. -/
def regenerateCache (cloud : Cloud) (m : Manager) : Manager × Bool :=
  match regenLoop cloud m.migs m [] with
  | (m1, none) => (m1, false)
  | (m1, some cache) => ({ m1 with migCache := cache }, true)

/-- The errors `GetMigForInstance` can surface: a failed rebuild (wrapped
collaborator error) or the hard "instance does not belong to any
configured MIG". -/
inductive MigErr where
  | regenFailed
  | doesNotBelong
  deriving DecidableEq, Repr

/-- Character-list prefix test backing `strStartsWith`. -/
def charListPre : List Char → List Char → Bool
  | [], _ => true
  | _ :: _, [] => false
  | c :: cs, d :: ds => c == d && charListPre cs ds

/-- `strings.HasPrefix(s, pre)`, written out over the character lists so
that it evaluates inside the kernel (`String.startsWith` is built on
opaque substring primitives). -/
def strStartsWith (s pre : String) : Bool :=
  charListPre pre.data s.data

/-- The slow-path guard of `GetMigForInstance`: the instance's project and
zone match the group's and the instance name extends the group's cached
basename (`strings.HasPrefix`). -/
def matchesBasename (inst : GceRef) (mi : MigInformation) : Bool :=
  mi.config.gceRef.project == inst.project &&
  mi.config.gceRef.zone == inst.zone &&
  strStartsWith inst.name mi.basename

/-- `GetMigForInstance`: cache hit; else if some registered group matches
the instance's project/zone and its name extends the group's basename,
rebuild the cache and retry once, reporting the hard error on a second
miss; else a soft not-found `(nil, nil)`. -/
def GetMigForInstance (cloud : Cloud) (m : Manager) (inst : GceRef) :
    Manager × Except MigErr (Option Mig) :=
  match cacheGet m.migCache inst with
  | some mig => (m, .ok (some mig))
  | none =>
      match m.migs.find? (matchesBasename inst) with
      | some _ =>
          match regenerateCache cloud m with
          | (m1, false) => (m1, .error .regenFailed)
          | (m1, true) =>
              match cacheGet m1.migCache inst with
              | some mig => (m1, .ok (some mig))
              | none => (m1, .error .doesNotBelong)
      | none => (m, .ok none)

/-- The Mig `fetchAllNodePoolsGkeNapImpl` derives for one backing
instance-group URL of an autoscaled pool. -/
def napMigOf (managerId : Nat) (pool : NodePool) (a : NodePoolAutoscaling)
    (ref : GceRef) : Mig :=
  { gceRef := ref, gceManager := managerId, exist := true,
    autoprovisioned := a.autoprovisioned, nodePoolName := pool.name,
    minSize := a.minNodeCount, maxSize := a.maxNodeCount, spec := none }

/-- Accumulator of the reconcile pass: manager state, the set of
identities seen in this listing, the changed flag, and whether the pass is
still error-free. -/
structure NapAcc where
  mgr : Manager
  seen : List GceRef
  changed : Bool
  ok : Bool
  deriving Repr

/-- The inner URL loop of the reconcile pass: parse each backing
instance-group URL and register the derived group; a parse failure aborts
the pass, keeping the registrations already made. -/
def napUrlLoop (cloud : Cloud) (pool : NodePool) (a : NodePoolAutoscaling) :
    List String → NapAcc → NapAcc
  | [], acc => acc
  | url :: rest, acc =>
      match cloud.parseIgUrl url with
      | none => { acc with ok := false }
      | some ref =>
          let mig := napMigOf acc.mgr.managerId pool a ref
          let rm := RegisterMig acc.mgr mig
          napUrlLoop cloud pool a rest
            { mgr := rm.2, seen := acc.seen ++ [ref],
              changed := acc.changed || rm.1, ok := acc.ok }

/-- The pool loop of the reconcile pass: a pool that is not autoscaled is
skipped (the autoprovisioned-but-not-autoscaled case only logs a warning);
an autoscaled pool contributes one derived group per backing URL. -/
def napPoolLoop (cloud : Cloud) : List NodePool → NapAcc → NapAcc
  | [], acc => acc
  | pool :: rest, acc =>
      match pool.autoscaling with
      | none => napPoolLoop cloud rest acc
      | some a =>
          if a.enabled then
            let acc1 := napUrlLoop cloud pool a pool.instanceGroupUrls acc
            if acc1.ok then napPoolLoop cloud rest acc1 else acc1
          else napPoolLoop cloud rest acc

/-- The unregister phase: over a snapshot of the registered list, remove
every group absent from this listing, setting the changed flag. -/
def napUnregisterPhase (seen : List GceRef) :
    List MigInformation → Manager → Bool → Manager × Bool
  | [], m, changed => (m, changed)
  | mi :: rest, m, changed =>
      if seen.any (fun r => r = mi.config.gceRef) then
        napUnregisterPhase seen rest m changed
      else napUnregisterPhase seen rest (UnregisterMig m mi.config).2 true

/-- `fetchAllNodePoolsGkeNapImpl`: list the pools, register the derived
groups, unregister the vanished ones, and regenerate the cache once if
anything changed.  The `Bool` is success; on failure the state mutated so
far persists. -/
def fetchAllNodePoolsGkeNapImpl (cloud : Cloud) (m : Manager) :
    Manager × Bool :=
  match cloud.listNodePools with
  | none => (m, false)
  | some pools =>
      let acc := napPoolLoop cloud pools
        { mgr := m, seen := [], changed := false, ok := true }
      if acc.ok then
        let ur := napUnregisterPhase acc.seen acc.mgr.migs acc.mgr acc.changed
        if ur.2 then regenerateCache cloud ur.1
        else (ur.1, true)
      else (acc.mgr, false)

/-- The pool qualifies for registration: `nodePool.Autoscaling != nil &&
nodePool.Autoscaling.Enabled`. -/
def poolAutoscaled (pool : NodePool) : Bool :=
  match pool.autoscaling with
  | some a => a.enabled
  | none => false

/-- The group identities the listing derives: one per backing
instance-group URL of each autoscaled pool, in order, for the URLs that
parse. -/
def derivedRefs (cloud : Cloud) (pools : List NodePool) : List GceRef :=
  pools.foldr (fun pool acc =>
    match pool.autoscaling with
    | some a =>
        if a.enabled then
          pool.instanceGroupUrls.filterMap cloud.parseIgUrl ++ acc
        else acc
    | none => acc) []

/-- The identities of the registered groups. -/
def migsRefs (m : Manager) : List GceRef :=
  m.migs.map (fun mi => mi.config.gceRef)

/-- A `Register`/`Unregister` operation, for stating properties over any
sequence of registry mutations. -/
inductive RegOp where
  | register (mig : Mig)
  | unregister (mig : Mig)

/-- Apply a sequence of registry operations. -/
def applyOps (m : Manager) : List RegOp → Manager
  | [] => m
  | .register g :: rest => applyOps (RegisterMig m g).2 rest
  | .unregister g :: rest => applyOps (UnregisterMig m g).2 rest

/-- The instance `inst` is reported live by the cloud collaborator for
some group of the registered list `migs`. -/
def listedBy (cloud : Cloud) (migs : List MigInformation) (inst : GceRef) :
    Prop :=
  ∃ mi ∈ migs, ∃ l, cloud.listManagedInstances mi.config.gceRef = some l ∧ inst ∈ l

/-- Fixture: identity of the example group. -/
def exRef : GceRef := { project := "p1", zone := "z1", name := "mig1" }

/-- Fixture: identity of a second example group. -/
def exRef2 : GceRef := { project := "p1", zone := "z1", name := "mig2" }

/-- Fixture: a group owned by manager 0. -/
def exMig : Mig :=
  { gceRef := exRef, gceManager := 0, exist := true, autoprovisioned := false,
    nodePoolName := "pool1", minSize := 1, maxSize := 10, spec := none }

/-- Fixture: the same group content with the back-reference pointing to a
different manager object. -/
def exMigOther : Mig := { exMig with gceManager := 1 }

/-- Fixture: an empty manager with identity 0. -/
def exManager : Manager := { managerId := 0, migs := [], migCache := [] }

/-- Fixture: a manager that has `exMig` registered. -/
def exManagerReg : Manager :=
  { managerId := 0, migs := [{ config := exMig, basename := "" }], migCache := [] }

/-- Fixture: a member instance of the example group. -/
def exInst : GceRef := { project := "p1", zone := "z1", name := "mig1-base-aaaa" }

/-- Fixture: an instance name extending the basename but reported by no
group. -/
def exGhostInst : GceRef := { project := "p1", zone := "z1", name := "mig1-base-zzzz" }

/-- Fixture: a second group, backed by `exRef2`. -/
def exMig2 : Mig := { exMig with gceRef := exRef2, nodePoolName := "pool2" }

/-- Fixture: a register/register/unregister sequence leaving only `exMig`
registered. -/
def exOps : List RegOp :=
  [.register exMig, .register exMig2, .unregister exMig2]

/-- Fixture: the manager after a successful rebuild against `exCloud`:
basename refreshed, cache holding the one live member. -/
def exManagerRebuilt : Manager :=
  { managerId := 0, migs := [{ config := exMig, basename := "mig1-base" }],
    migCache := [(exInst, exMig)] }

/-- Fixture: the manager with the basename cached but the instance cache
empty. -/
def exManagerBase : Manager :=
  { managerId := 0, migs := [{ config := exMig, basename := "mig1-base" }],
    migCache := [] }

/-- Fixture: an instance in a project no registered group lives in. -/
def exSoftInst : GceRef := { project := "q1", zone := "z1", name := "mig1-base-bbbb" }

/-- Fixture node pools: one autoscaled pool backed by one URL, one pool
with no autoscaling block. -/
def exNodePools : List NodePool :=
  [ { name := "pool1",
      autoscaling := some
        { enabled := true, autoprovisioned := false,
          minNodeCount := 1, maxNodeCount := 10 },
      instanceGroupUrls := ["url1"] },
    { name := "pool2", autoscaling := none, instanceGroupUrls := ["url2"] } ]

/-- Fixture cloud: one autoscaled pool backed by `exRef`, whose single
live member is `exInst`. -/
def exCloud : Cloud :=
  { baseInstanceName := fun r => if r = exRef then some "mig1-base" else none,
    listManagedInstances := fun r => if r = exRef then some [exInst] else none,
    listNodePools := some exNodePools,
    parseIgUrl := fun s => if s = "url1" then some exRef else none }

end Gce

namespace ScaleDownSpec

/-- Modelled from the spec: the candidate-capping step of
`UpdateUnneededNodes` in `scale_down.go`, whose source is not part of the
corpus (only its tests are).  Per the spec, all empty candidates are
included; the pool of non-empty candidates considered is bounded by the
larger of `totalNodes * poolRatio` and the pool floor `poolMinCount`, and
at most `maxNonEmpty` of that pool are included. -/
def capCandidates (emptyCands nonEmptyCands : List String) (totalNodes : Nat)
    (maxNonEmpty : Nat) (poolRatio : ℚ) (poolMinCount : Nat) : List String :=
  let poolSize : Nat := max (Nat.floor ((totalNodes : ℚ) * poolRatio)) poolMinCount
  emptyCands ++ ((nonEmptyCands.take poolSize).take maxNonEmpty)

end ScaleDownSpec

namespace Simulator

/-- Claim C5: for every node and set of pods on it, the utilization is the
maximum over CPU and memory of the summed container requests divided by
the node's advertised capacity, and the computation returns an error —
excluding the node instead of crashing — exactly when the capacity entry
for CPU or memory is absent or zero. -/
theorem calculateUtilization_spec (node : Node) (pods : List Pod) :
    ((CalculateUtilization node pods).isOk = true ↔
      ((∃ c, lookupRes node.status.capacity .cpu = some c ∧ c ≠ 0) ∧
       (∃ c, lookupRes node.status.capacity .memory = some c ∧ c ≠ 0))) ∧
    (∀ ccpu cmem, lookupRes node.status.capacity .cpu = some ccpu → ccpu ≠ 0 →
      lookupRes node.status.capacity .memory = some cmem → cmem ≠ 0 →
      CalculateUtilization node pods =
        .ok (max ((podsRequest pods .cpu : ℚ) / (ccpu : ℚ))
                 ((podsRequest pods .memory : ℚ) / (cmem : ℚ)))) := by
  constructor
  · unfold CalculateUtilization calculateUtilizationOfResource
    cases hc : lookupRes node.status.capacity .cpu with
    | none => simp [Except.isOk, Except.toBool]
    | some c =>
      by_cases hc0 : c = 0
      · subst hc0; simp [Except.isOk, Except.toBool]
      · cases hm : lookupRes node.status.capacity .memory with
        | none => simp [hc0, Except.isOk, Except.toBool]
        | some d =>
          by_cases hd0 : d = 0
          · subst hd0; simp [hc0, Except.isOk, Except.toBool]
          · simp [hc0, hd0, Except.isOk, Except.toBool]
  · intro ccpu cmem h1 h2 h3 h4
    unfold CalculateUtilization calculateUtilizationOfResource
    rw [h1, h3]
    simp [h2, h4]

/-- Witness for claim C5: on the fixture node, utilization is
`max (400/2000) (1000/4000) = 1/4`; on the node lacking a memory capacity
entry the computation errors out. -/
theorem calculateUtilization_spec_witness :
    CalculateUtilization utilNode utilPods = Except.ok ((1 : ℚ)/4) ∧
    (CalculateUtilization utilNodeNoMem utilPods).isOk = false := by
  constructor
  · have h := (calculateUtilization_spec utilNode utilPods).2 2000 4000 rfl
      (by norm_num) rfl (by norm_num)
    rw [h]
    have e1 : podsRequest utilPods .cpu = 400 := rfl
    have e2 : podsRequest utilPods .memory = 1000 := rfl
    rw [e1, e2]
    norm_num
  · have h := (calculateUtilization_spec utilNodeNoMem utilPods).1
    revert h
    cases hv : (CalculateUtilization utilNodeNoMem utilPods).isOk
    · intro _; rfl
    · intro h
      exfalso
      have h2 := h.mp rfl
      have hmem : lookupRes utilNodeNoMem.status.capacity .memory = none := rfl
      rcases h2.2 with ⟨c, hc, _⟩
      rw [hmem] at hc
      exact Option.noConfusion hc

end Simulator

namespace Gce

theorem registerScan_none {mig : Mig} {l : List MigInformation} :
    registerScan mig l = none ↔ ∀ mi ∈ l, mi.config.gceRef ≠ mig.gceRef := by
  induction l with
  | nil => simp [registerScan]
  | cons mi rest ih =>
    by_cases h : mi.config.gceRef = mig.gceRef
    · simp only [registerScan, h, if_pos]
      by_cases hd : migDeepEqual mi.config mig <;> simp [hd, h]
    · simp only [registerScan, h, if_neg, Option.map_eq_none']
      simp [ih, h]

theorem registerScan_some {mig : Mig} {l : List MigInformation} {b : Bool}
    {l1 : List MigInformation} (h : registerScan mig l = some (b, l1)) :
    ∃ mi, l.find? (fun x => x.config.gceRef = mig.gceRef) = some mi ∧
      b = !migDeepEqual mi.config mig ∧ (b = false → l1 = l) := by
  induction l generalizing b l1 with
  | nil => simp [registerScan] at h
  | cons mi rest ih =>
    by_cases hr : mi.config.gceRef = mig.gceRef
    · rw [registerScan] at h
      rw [if_pos hr] at h
      by_cases hd : migDeepEqual mi.config mig
      · rw [if_pos hd] at h
        refine ⟨mi, by simp [List.find?, hr], ?_, ?_⟩
        · cases h
          simp [hd]
        · intro _
          cases h
          rfl
      · rw [if_neg hd] at h
        refine ⟨mi, by simp [List.find?, hr], ?_, ?_⟩
        · cases h
          simp [hd]
        · intro hb
          cases h
          simp at hb
    · rw [registerScan] at h
      rw [if_neg hr] at h
      rcases Option.map_eq_some'.mp h with ⟨p, hp, hpe⟩
      obtain ⟨mi', hfind, hb, hfalse⟩ := ih (by simpa using hp)
      cases hpe
      refine ⟨mi', ?_, hb, ?_⟩
      · simp [List.find?, hr, hfind]
      · intro hb0
        rw [hfalse hb0]

/-- Counterexample to claim C3 as stated: a group identical to the
registered one in every descriptive field, differing only in the
`gceManager` back-reference, is reported as a change (`true`), because
`reflect.DeepEqual` compares the whole struct, back-reference included —
while re-registering the identical group is reported as no change. -/
theorem registerMig_backref_participates_cex :
    exMigOther.gceRef = exMig.gceRef ∧
    exMigOther.exist = exMig.exist ∧
    exMigOther.autoprovisioned = exMig.autoprovisioned ∧
    exMigOther.nodePoolName = exMig.nodePoolName ∧
    exMigOther.minSize = exMig.minSize ∧
    exMigOther.maxSize = exMig.maxSize ∧
    exMigOther.spec = exMig.spec ∧
    exMigOther.gceManager ≠ exMig.gceManager ∧
    (RegisterMig exManagerReg exMigOther).1 = true ∧
    (RegisterMig exManagerReg exMig).1 = false := by decide

/-- Claim C3 (amended): `RegisterMig(g)` returns `true` iff no registered
group has `g`'s `{Project, Zone, Name}` identity, or the first entry with
that identity differs from `g` under deep content comparison of all
fields of the group — the `gceManager` back-reference included; when it
returns `false` the registry is unchanged. -/
theorem registerMig_change_detection (m : Manager) (mig : Mig) :
    ((RegisterMig m mig).1 = true ↔
      ((∀ mi ∈ m.migs, mi.config.gceRef ≠ mig.gceRef) ∨
       (∃ mi, m.migs.find? (fun x => x.config.gceRef = mig.gceRef) = some mi ∧
         mi.config ≠ mig))) ∧
    ((RegisterMig m mig).1 = false → (RegisterMig m mig).2 = m) := by
  constructor
  · unfold RegisterMig
    cases hs : registerScan mig m.migs with
    | none =>
      simp only []
      constructor
      · intro _
        exact Or.inl (registerScan_none.mp hs)
      · intro _
        trivial
    | some p =>
      obtain ⟨b, l1⟩ := p
      obtain ⟨mi, hfind, hb, _⟩ := registerScan_some hs
      simp only []
      constructor
      · intro ht
        rw [ht] at hb
        refine Or.inr ⟨mi, hfind, ?_⟩
        intro hcfg
        rw [hcfg] at hb
        simp [migDeepEqual] at hb
      · intro hcase
        rcases hcase with hall | ⟨mi2, hfind2, hne⟩
        · exfalso
          have := List.find?_some hfind
          have hmem := List.mem_of_find?_eq_some hfind
          exact hall mi hmem (by simpa using this)
        · rw [hfind2] at hfind
          cases hfind
          rw [hb]
          simp [migDeepEqual]
          intro he
          exact absurd he hne
  · unfold RegisterMig
    cases hs : registerScan mig m.migs with
    | none =>
      intro hfalse
      simp at hfalse
    | some p =>
      obtain ⟨b, l1⟩ := p
      obtain ⟨mi, hfind, hb, hfl⟩ := registerScan_some hs
      intro hfalse
      simp only [] at hfalse
      rw [hfl hfalse]

/-- Witness for claim C3: registering a group into an empty registry is
reported as new. -/
theorem registerMig_change_detection_witness :
    (RegisterMig exManager exMig).1 = true :=
  (registerMig_change_detection exManager exMig).1.mpr (Or.inl (by decide))

end Gce

namespace Gce

theorem cacheGet_cacheSet (l : List (GceRef × Mig)) (k : GceRef) (v : Mig)
    (k1 : GceRef) :
    cacheGet (cacheSet l k v) k1 = if k1 = k then some v else cacheGet l k1 := by
  induction l with
  | nil =>
    by_cases h : k1 = k
    · simp [cacheSet, cacheGet, List.find?, h]
    · have hne : ¬ k = k1 := fun he => h he.symm
      simp [cacheSet, cacheGet, List.find?, h, hne]
  | cons p rest ih =>
    by_cases hp : p.1 = k
    · rw [cacheSet, if_pos hp]
      by_cases h : k1 = k
      · simp [cacheGet, List.find?, h]
      · have hne : ¬ k = k1 := fun he => h he.symm
        have hpne : ¬ p.1 = k1 := by rw [hp]; exact hne
        simp [cacheGet, List.find?, hne, hpne, h]
    · rw [cacheSet, if_neg hp]
      by_cases hq : p.1 = k1
      · have h : ¬ k1 = k := by
          intro he
          exact hp (by rw [hq, he])
        simp [cacheGet, List.find?, hq, h]
      · simp only [cacheGet, List.find?] at ih ⊢
        simp [hq, ih]

theorem foldSet_char (insts : List GceRef) (v : Mig)
    (acc : List (GceRef × Mig)) (inst : GceRef) :
    cacheGet (insts.foldl (fun a r => cacheSet a r v) acc) inst =
      if inst ∈ insts then some v else cacheGet acc inst := by
  induction insts generalizing acc with
  | nil => simp
  | cons r rest ih =>
    simp only [List.foldl_cons]
    rw [ih]
    by_cases h1 : inst ∈ rest
    · simp [h1]
    · by_cases h2 : inst = r
      · simp [h1, h2, cacheGet_cacheSet]
      · simp [h1, h2, cacheGet_cacheSet]

end Gce

namespace Gce

theorem updateMigBasename_config (m : Manager) (ref : GceRef) (bn : String) :
    (updateMigBasename m ref bn).managerId = m.managerId ∧
    (updateMigBasename m ref bn).migCache = m.migCache ∧
    (updateMigBasename m ref bn).migs.map (fun mi => mi.config) =
      m.migs.map (fun mi => mi.config) := by
  refine ⟨rfl, rfl, ?_⟩
  unfold updateMigBasename
  simp only [List.map_map]
  apply List.map_congr_left
  intro mi _
  by_cases h : mi.config.gceRef = ref <;> simp [h]

theorem regenLoop_pres (cloud : Cloud) (migs : List MigInformation) :
    ∀ (m : Manager) (acc : List (GceRef × Mig)),
      (regenLoop cloud migs m acc).1.managerId = m.managerId ∧
      (regenLoop cloud migs m acc).1.migCache = m.migCache ∧
      (regenLoop cloud migs m acc).1.migs.map (fun mi => mi.config) =
        m.migs.map (fun mi => mi.config) := by
  induction migs with
  | nil =>
    intro m acc
    exact ⟨rfl, rfl, rfl⟩
  | cons mi rest ih =>
    intro m acc
    rw [regenLoop]
    cases cloud.baseInstanceName mi.config.gceRef with
    | none => exact ⟨rfl, rfl, rfl⟩
    | some bn =>
      cases cloud.listManagedInstances mi.config.gceRef with
      | none =>
        simp only []
        exact updateMigBasename_config m mi.config.gceRef bn
      | some insts =>
        simp only []
        have hu := updateMigBasename_config m mi.config.gceRef bn
        have hr := ih (updateMigBasename m mi.config.gceRef bn)
          (insts.foldl (fun a ref => cacheSet a ref mi.config) acc)
        exact ⟨hr.1.trans hu.1, hr.2.1.trans hu.2.1, hr.2.2.trans hu.2.2⟩

theorem regenLoop_char (cloud : Cloud) (migs : List MigInformation) :
    ∀ (m m1 : Manager) (acc cache : List (GceRef × Mig)),
      regenLoop cloud migs m acc = (m1, some cache) →
      ∀ inst,
        ((cacheGet cache inst).isSome ↔
          ((cacheGet acc inst).isSome ∨ listedBy cloud migs inst)) ∧
        (∀ mig, cacheGet cache inst = some mig →
          cacheGet acc inst = some mig ∨
            ∃ mi ∈ migs, mi.config = mig ∧
              ∃ l, cloud.listManagedInstances mi.config.gceRef = some l ∧ inst ∈ l) := by
  induction migs with
  | nil =>
    intro m m1 acc cache h inst
    rw [regenLoop] at h
    injection h with h1 h2
    injection h2 with h2
    subst h2
    constructor
    · simp [listedBy]
    · intro mig hm
      exact Or.inl hm
  | cons mi rest ih =>
    intro m m1 acc cache h inst
    rw [regenLoop] at h
    cases hbn : cloud.baseInstanceName mi.config.gceRef with
    | none =>
      rw [hbn] at h
      injection h with h1 h2
      cases h2
    | some bn =>
      rw [hbn] at h
      cases hli : cloud.listManagedInstances mi.config.gceRef with
      | none =>
        rw [hli] at h
        injection h with h1 h2
        cases h2
      | some insts =>
        rw [hli] at h
        have hchar := ih _ _ _ _ h inst
        have hacc : cacheGet (insts.foldl (fun a ref => cacheSet a ref mi.config) acc) inst =
            if inst ∈ insts then some mi.config else cacheGet acc inst :=
          foldSet_char insts mi.config acc inst
        have hlist : listedBy cloud (mi :: rest) inst ↔
            (inst ∈ insts ∨ listedBy cloud rest inst) := by
          constructor
          · rintro ⟨mj, hmj, l, hl, hin⟩
            rcases List.mem_cons.mp hmj with rfl | hmem
            · rw [hli] at hl
              injection hl with hl
              subst hl
              exact Or.inl hin
            · exact Or.inr ⟨mj, hmem, l, hl, hin⟩
          · rintro (hin | ⟨mj, hmem, l, hl, hin⟩)
            · exact ⟨mi, List.mem_cons_self mi rest, insts, hli, hin⟩
            · exact ⟨mj, List.mem_cons_of_mem mi hmem, l, hl, hin⟩
        constructor
        · rw [hchar.1, hacc, hlist]
          by_cases hmem : inst ∈ insts
          · simp [hmem]
          · simp [hmem]
        · intro mig hm
          rcases hchar.2 mig hm with hacc2 | ⟨mj, hmem, hcfg, l, hl, hin⟩
          · rw [hacc] at hacc2
            by_cases hmem : inst ∈ insts
            · rw [if_pos hmem] at hacc2
              injection hacc2 with hacc2
              exact Or.inr ⟨mi, List.mem_cons_self mi rest, hacc2, insts, hli, hmem⟩
            · rw [if_neg hmem] at hacc2
              exact Or.inl hacc2
          · exact Or.inr ⟨mj, List.mem_cons_of_mem mi hmem, hcfg, l, hl, hin⟩

theorem regenerateCache_char (cloud : Cloud) (m m1 : Manager)
    (h : regenerateCache cloud m = (m1, true)) :
    m1.managerId = m.managerId ∧
    m1.migs.map (fun mi => mi.config) = m.migs.map (fun mi => mi.config) ∧
    ∀ inst,
      ((cacheGet m1.migCache inst).isSome ↔ listedBy cloud m.migs inst) ∧
      (∀ mig, cacheGet m1.migCache inst = some mig →
        ∃ mi ∈ m.migs, mi.config = mig ∧
          ∃ l, cloud.listManagedInstances mi.config.gceRef = some l ∧ inst ∈ l) := by
  unfold regenerateCache at h
  cases hrl : regenLoop cloud m.migs m [] with
  | mk m2 r =>
    rw [hrl] at h
    cases r with
    | none =>
      exfalso
      injection h with h1 h2
      cases h2
    | some cache =>
      injection h with h1 h2
      subst h1
      have hp := regenLoop_pres cloud m.migs m []
      rw [hrl] at hp
      have hc := regenLoop_char cloud m.migs m m2 [] cache hrl
      refine ⟨hp.1, ?_, ?_⟩
      · exact hp.2.2
      · intro inst
        have hci := hc inst
        constructor
        · rw [show ({ m2 with migCache := cache } : Manager).migCache = cache from rfl]
          rw [hci.1]
          simp [cacheGet]
        · intro mig hm
          rcases hci.2 mig hm with hnone | hrest
          · simp [cacheGet] at hnone
          · exact hrest

end Gce

namespace Gce

/-- Claim C4: after any sequence of Register/Unregister operations
followed by a successful forced cache rebuild, the instance cache contains
exactly the instances the cloud collaborator reports live for the
currently registered groups; every entry maps to the config of a
registered group that reports it (hence no entry refers to an
unregistered group, the registered configs being unchanged by the
rebuild), and under disjoint listings each instance maps to its owning
group. -/
theorem regenerateCache_consistency (cloud : Cloud) (m0 : Manager)
    (ops : List RegOp) (m1 : Manager)
    (hrun : regenerateCache cloud (applyOps m0 ops) = (m1, true))
    (hdisj : ∀ mi ∈ (applyOps m0 ops).migs, ∀ mj ∈ (applyOps m0 ops).migs,
      ∀ li lj inst, cloud.listManagedInstances mi.config.gceRef = some li →
        cloud.listManagedInstances mj.config.gceRef = some lj →
        inst ∈ li → inst ∈ lj → mi.config = mj.config) :
    (∀ inst, (cacheGet m1.migCache inst).isSome ↔
       listedBy cloud (applyOps m0 ops).migs inst) ∧
    (∀ inst mig, cacheGet m1.migCache inst = some mig →
       mig ∈ m1.migs.map (fun mi => mi.config)) ∧
    (∀ inst mi, mi ∈ (applyOps m0 ops).migs →
       (∃ l, cloud.listManagedInstances mi.config.gceRef = some l ∧ inst ∈ l) →
       cacheGet m1.migCache inst = some mi.config) := by
  obtain ⟨hid, hcfg, hchar⟩ := regenerateCache_char cloud (applyOps m0 ops) m1 hrun
  refine ⟨fun inst => (hchar inst).1, ?_, ?_⟩
  · intro inst mig hm
    obtain ⟨mi, hmem, hc, _⟩ := (hchar inst).2 mig hm
    rw [hcfg]
    exact List.mem_map.mpr ⟨mi, hmem, hc⟩
  · rintro inst mi hmem ⟨l, hl, hin⟩
    have hsome : (cacheGet m1.migCache inst).isSome :=
      (hchar inst).1.mpr ⟨mi, hmem, l, hl, hin⟩
    obtain ⟨mig, hmig⟩ := Option.isSome_iff_exists.mp hsome
    obtain ⟨mj, hmemj, hcfgj, lj, hlj, hinj⟩ := (hchar inst).2 mig hmig
    have heq : mj.config = mi.config := hdisj mj hmemj mi hmem lj l inst hlj hl hinj hin
    rw [hmig, ← hcfgj, heq]

/-- Witness for claim C4: after registering two groups and unregistering
the second, a successful rebuild against the fixture cloud caches exactly
the one live member instance, owned by the remaining group, and no ghost
instance. -/
theorem regenerateCache_consistency_witness :
    cacheGet (regenerateCache exCloud (applyOps exManager exOps)).1.migCache exInst
        = some exMig ∧
    (cacheGet (regenerateCache exCloud (applyOps exManager exOps)).1.migCache exGhostInst).isSome
        = false := by
  have happ : applyOps exManager exOps = exManagerReg := rfl
  have hrun : regenerateCache exCloud (applyOps exManager exOps) = (exManagerRebuilt, true) := rfl
  have hdisj : ∀ mi ∈ (applyOps exManager exOps).migs,
      ∀ mj ∈ (applyOps exManager exOps).migs,
      ∀ li lj inst, exCloud.listManagedInstances mi.config.gceRef = some li →
        exCloud.listManagedInstances mj.config.gceRef = some lj →
        inst ∈ li → inst ∈ lj → mi.config = mj.config := by
    rw [happ]
    intro mi hmi mj hmj li lj inst hli hlj hi hj
    have h1 : mi = { config := exMig, basename := "" } := by
      simpa [exManagerReg] using hmi
    have h2 : mj = { config := exMig, basename := "" } := by
      simpa [exManagerReg] using hmj
    rw [h1, h2]
  have h := regenerateCache_consistency exCloud exManager exOps exManagerRebuilt hrun hdisj
  constructor
  · have h3 := h.2.2 exInst { config := exMig, basename := "" }
      (by rw [happ]; simp [exManagerReg])
      ⟨[exInst], rfl, by simp⟩
    rw [hrun]
    exact h3
  · rw [hrun]
    show (cacheGet exManagerRebuilt.migCache exGhostInst).isSome = false
    have h1 := (h.1 exGhostInst)
    cases hv : (cacheGet exManagerRebuilt.migCache exGhostInst).isSome
    · rfl
    · exfalso
      have hl := h1.mp hv
      rw [happ] at hl
      obtain ⟨mi, hmi, l, hml, hin⟩ := hl
      have h1m : mi = { config := exMig, basename := "" } := by
        simpa [exManagerReg] using hmi
      rw [h1m] at hml
      have : l = [exInst] := by
        have : exCloud.listManagedInstances exMig.gceRef = some [exInst] := rfl
        rw [this] at hml
        injection hml with hml
        exact hml.symm
      rw [this] at hin
      simp [exGhostInst, exInst] at hin

end Gce

namespace Gce

/-- Claim C2: `GetMigForInstance` returns the cached owning group on a
cache hit; otherwise, when some registered group matches the instance's
project/zone and its name extends the group's basename, the cache is fully
rebuilt and the lookup retried once — yielding the hard
"does not belong to any configured MIG" error exactly when no registered
group's live listing contains the instance, and the rebuilt owner
otherwise; when no registered group matches, a soft not-found (no group,
no error) is returned. -/
theorem getMigForInstance_spec (cloud : Cloud) (m : Manager) (inst : GceRef) :
    (∀ mig, cacheGet m.migCache inst = some mig →
       GetMigForInstance cloud m inst = (m, .ok (some mig))) ∧
    (cacheGet m.migCache inst = none →
      ((m.migs.find? (matchesBasename inst) = none →
         GetMigForInstance cloud m inst = (m, .ok none)) ∧
       (∀ mi, m.migs.find? (matchesBasename inst) = some mi →
         ((∀ m1, regenerateCache cloud m = (m1, false) →
             GetMigForInstance cloud m inst = (m1, .error .regenFailed)) ∧
          (∀ m1, regenerateCache cloud m = (m1, true) →
            ((¬ listedBy cloud m.migs inst →
                GetMigForInstance cloud m inst = (m1, .error .doesNotBelong)) ∧
             (listedBy cloud m.migs inst →
                ∃ mig, GetMigForInstance cloud m inst = (m1, .ok (some mig)) ∧
                  ∃ mj ∈ m.migs, mj.config = mig ∧
                    ∃ l, cloud.listManagedInstances mj.config.gceRef = some l ∧
                      inst ∈ l))))))) := by
  constructor
  · intro mig hm
    unfold GetMigForInstance
    rw [hm]
  · intro hnone
    constructor
    · intro hfind
      unfold GetMigForInstance
      rw [hnone, hfind]
    · intro mi hfind
      constructor
      · intro m1 hregen
        unfold GetMigForInstance
        rw [hnone, hfind, hregen]
      · intro m1 hregen
        obtain ⟨hid, hcfg, hchar⟩ := regenerateCache_char cloud m m1 hregen
        constructor
        · intro hnl
          unfold GetMigForInstance
          rw [hnone, hfind, hregen]
          have hv : cacheGet m1.migCache inst = none := by
            cases hv2 : cacheGet m1.migCache inst with
            | none => rfl
            | some mig =>
              exfalso
              have hsome : (cacheGet m1.migCache inst).isSome = true := by
                rw [hv2]; rfl
              exact hnl ((hchar inst).1.mp hsome)
          simp only [hv]
        · intro hl
          have hsome := (hchar inst).1.mpr hl
          obtain ⟨mig, hmig⟩ := Option.isSome_iff_exists.mp hsome
          refine ⟨mig, ?_, ?_⟩
          · unfold GetMigForInstance
            rw [hnone, hfind, hregen]
            simp only [hmig]
          · obtain ⟨mj, hmem, hc, l, hml, hin⟩ := (hchar inst).2 mig hmig
            exact ⟨mj, hmem, hc, l, hml, hin⟩

/-- Witness for claim C2: a cache hit returns the cached owner; an
instance in a foreign project gets the soft not-found; an instance whose
name extends the basename but which no listing reports gets the hard
error after a rebuild. -/
theorem getMigForInstance_spec_witness :
    GetMigForInstance exCloud exManagerRebuilt exInst
        = (exManagerRebuilt, .ok (some exMig)) ∧
    GetMigForInstance exCloud exManagerBase exSoftInst
        = (exManagerBase, .ok none) ∧
    GetMigForInstance exCloud exManagerBase exGhostInst
        = (exManagerRebuilt, .error .doesNotBelong) := by
  refine ⟨?_, ?_, ?_⟩
  · exact (getMigForInstance_spec exCloud exManagerRebuilt exInst).1 exMig rfl
  · exact ((getMigForInstance_spec exCloud exManagerBase exSoftInst).2 rfl).1 rfl
  · have hfind : List.find? (matchesBasename exGhostInst) exManagerBase.migs =
        some { config := exMig, basename := "mig1-base" } := by decide
    have hreg : regenerateCache exCloud exManagerBase = (exManagerRebuilt, true) := rfl
    have h := (((getMigForInstance_spec exCloud exManagerBase exGhostInst).2 rfl).2
      { config := exMig, basename := "mig1-base" } hfind).2 exManagerRebuilt hreg
    apply h.1
    rintro ⟨mi, hmi, l, hml, hin⟩
    have h1m : mi = { config := exMig, basename := "mig1-base" } := by
      simpa [exManagerBase] using hmi
    rw [h1m] at hml
    have hll : exCloud.listManagedInstances exMig.gceRef = some [exInst] := rfl
    rw [hll] at hml
    injection hml with hml
    rw [← hml] at hin
    simp [exGhostInst, exInst] at hin
end Gce

namespace Simulator

theorem assocGet_assocSet {β : Type} (l : List (String × β)) (k : String)
    (v : β) (k1 : String) :
    assocGet (assocSet l k v) k1 = if k1 = k then some v else assocGet l k1 := by
  induction l with
  | nil =>
    by_cases h : k1 = k
    · simp [assocSet, assocGet, List.find?, h]
    · have hne : ¬ k = k1 := fun he => h he.symm
      simp [assocSet, assocGet, List.find?, h, hne]
  | cons p rest ih =>
    by_cases hp : p.1 = k
    · rw [assocSet, if_pos hp]
      by_cases h : k1 = k
      · simp [assocGet, List.find?, h]
      · have hne : ¬ k = k1 := fun he => h he.symm
        have hpne : ¬ p.1 = k1 := by rw [hp]; exact hne
        simp [assocGet, List.find?, hne, hpne, h]
    · rw [assocSet, if_neg hp]
      by_cases hq : p.1 = k1
      · have h : ¬ k1 = k := by
          intro he
          exact hp (by rw [hq, he])
        simp [assocGet, List.find?, hq, h]
      · simp only [assocGet, List.find?] at ih ⊢
        simp [hq, ih]

theorem assocSet_isSome_mono {β : Type} (l : List (String × β)) (k : String)
    (v : β) (k1 : String) (h : (assocGet l k1).isSome = true) :
    (assocGet (assocSet l k v) k1).isSome = true := by
  rw [assocGet_assocSet]
  by_cases he : k1 = k <;> simp [he, h]

theorem assocSet_isSome_self {β : Type} (l : List (String × β)) (k : String)
    (v : β) : (assocGet (assocSet l k v) k).isSome = true := by
  rw [assocGet_assocSet]
  simp

theorem podKey_clear (p : Pod) : podKey { p with nodeName := "" } = podKey p := rfl

theorem tryNodeForPod_shape {pred : Pred} {pods0 : List Pod}
    {allNodes : List Node} {st : PlaceState} {nodename : String} {pod : Pod}
    {b : Bool} {st' : PlaceState}
    (h : tryNodeForPod pred pods0 allNodes st nodename pod = some (b, st')) :
    (b = false ∧ st' = st ∧ assocGet st.overlay nodename = none ∧
       hasInfo pods0 nodename = false) ∨
    (b = false ∧ st' = { st with heap := heapSetAlloc st.heap nodename }) ∨
    (b = true ∧ ∃ ps,
       st' = { overlay := assocSet st.overlay nodename (ps ++ [pod]),
               hints := assocSet st.hints (podKey pod) nodename,
               heap := heapSetAlloc st.heap nodename }) := by
  unfold tryNodeForPod at h
  cases hov : assocGet st.overlay nodename with
  | some ps =>
    rw [hov] at h
    simp only [] at h
    cases hin : infoNode allNodes nodename with
    | none => rw [hin] at h; cases h
    | some nd =>
      rw [hin] at h
      by_cases hp : pred pod nodename ps
      · rw [if_pos hp] at h
        injection h with h
        injection h with h1 h2
        exact Or.inr (Or.inr ⟨h1.symm, ps, h2.symm⟩)
      · rw [if_neg hp] at h
        injection h with h
        injection h with h1 h2
        exact Or.inr (Or.inl ⟨h1.symm, h2.symm⟩)
  | none =>
    rw [hov] at h
    simp only [] at h
    by_cases hi : hasInfo pods0 nodename
    · rw [if_pos hi] at h
      simp only [] at h
      cases hin : infoNode allNodes nodename with
      | none => rw [hin] at h; cases h
      | some nd =>
        rw [hin] at h
        by_cases hp : pred pod nodename (podsOn pods0 nodename)
        · rw [if_pos hp] at h
          injection h with h
          injection h with h1 h2
          exact Or.inr (Or.inr ⟨h1.symm, podsOn pods0 nodename, h2.symm⟩)
        · rw [if_neg hp] at h
          injection h with h
          injection h with h1 h2
          exact Or.inr (Or.inl ⟨h1.symm, h2.symm⟩)
    · rw [if_neg hi] at h
      injection h with h
      injection h with h1 h2
      subst h2
      refine Or.inl ⟨h1.symm, rfl, rfl, ?_⟩
      cases hv : hasInfo pods0 nodename
      · rfl
      · exact absurd hv hi

theorem tryNodeForPod_hints_mono {pred : Pred} {pods0 : List Pod}
    {allNodes : List Node} {st : PlaceState} {nodename : String} {pod : Pod}
    {b : Bool} {st' : PlaceState}
    (h : tryNodeForPod pred pods0 allNodes st nodename pod = some (b, st'))
    (k : String) (hk : (assocGet st.hints k).isSome = true) :
    (assocGet st'.hints k).isSome = true := by
  rcases tryNodeForPod_shape h with ⟨_, rfl, _⟩ | ⟨_, rfl⟩ | ⟨_, ps, rfl⟩
  · exact hk
  · exact hk
  · exact assocSet_isSome_mono _ _ _ _ hk

theorem tryNodeForPod_hints_write {pred : Pred} {pods0 : List Pod}
    {allNodes : List Node} {st : PlaceState} {nodename : String} {pod : Pod}
    {st' : PlaceState}
    (h : tryNodeForPod pred pods0 allNodes st nodename pod = some (true, st')) :
    (assocGet st'.hints (podKey pod)).isSome = true := by
  rcases tryNodeForPod_shape h with ⟨hb, _⟩ | ⟨hb, _⟩ | ⟨_, ps, rfl⟩
  · cases hb
  · cases hb
  · exact assocSet_isSome_self _ _ _

theorem allocOverwrite_idem (s : NodeStatus) :
    allocOverwrite (allocOverwrite s) = allocOverwrite s := rfl

theorem heapFrame_refl (h : Heap) : heapFrame h h := by
  induction h with
  | nil => exact List.Forall₂.nil
  | cons p rest ih => exact List.Forall₂.cons (Or.inl rfl) ih

theorem heapFrame_setAlloc {h0 h1 : Heap} (hf : heapFrame h0 h1) (n : String) :
    heapFrame h0 (heapSetAlloc h1 n) := by
  unfold heapFrame heapSetAlloc
  rw [List.forall₂_map_right_iff]
  refine List.Forall₂.imp ?_ hf
  intro a b hab
  by_cases hb : b.1 = n
  · rw [if_pos hb]
    rcases hab with rfl | rfl
    · exact Or.inr rfl
    · exact Or.inr rfl
  · rw [if_neg hb]
    exact hab

theorem tryNodeForPod_heapFrame {pred : Pred} {pods0 : List Pod}
    {allNodes : List Node} {st : PlaceState} {nodename : String} {pod : Pod}
    {b : Bool} {st' : PlaceState} {h0 : Heap}
    (h : tryNodeForPod pred pods0 allNodes st nodename pod = some (b, st'))
    (hf : heapFrame h0 st.heap) : heapFrame h0 st'.heap := by
  rcases tryNodeForPod_shape h with ⟨_, rfl, _⟩ | ⟨_, rfl⟩ | ⟨_, ps, rfl⟩
  · exact hf
  · exact heapFrame_setAlloc hf nodename
  · exact heapFrame_setAlloc hf nodename

theorem tryNodeForPod_heap_eq {pred : Pred} {pods0 : List Pod}
    {allNodes : List Node} {st : PlaceState} {nodename : String} {pod : Pod}
    {b : Bool} {st' : PlaceState}
    (hdest : evaluatedDest pods0 st nodename = true)
    (h : tryNodeForPod pred pods0 allNodes st nodename pod = some (b, st')) :
    st'.heap = heapSetAlloc st.heap nodename := by
  rcases tryNodeForPod_shape h with ⟨_, rfl, hov, hinf⟩ | ⟨_, rfl⟩ | ⟨_, ps, rfl⟩
  · exfalso
    unfold evaluatedDest at hdest
    rw [hov, hinf] at hdest
    simp at hdest
  · rfl
  · rfl

theorem tryNodeForPod_indep {pred : Pred} {pods0 : List Pod}
    {allNodes : List Node} {st st2 : PlaceState} {nodename : String} {pod : Pod}
    (hov : st.overlay = st2.overlay) :
    Option.map (fun p => (p.1, p.2.overlay))
        (tryNodeForPod pred pods0 allNodes st nodename pod) =
      Option.map (fun p => (p.1, p.2.overlay))
        (tryNodeForPod pred pods0 allNodes st2 nodename pod) := by
  unfold tryNodeForPod
  rw [hov]
  cases assocGet st2.overlay nodename with
  | some ps =>
    simp only []
    cases infoNode allNodes nodename with
    | none => rfl
    | some nd =>
      by_cases hp : pred pod nodename ps
      · simp [hp, hov]
      · simp [hp]
  | none =>
    simp only []
    by_cases hi : hasInfo pods0 nodename
    · simp only [if_pos hi]
      cases infoNode allNodes nodename with
      | none => rfl
      | some nd =>
        by_cases hp : pred pod nodename (podsOn pods0 nodename)
        · simp [hp, hov]
        · simp [hp]
    · simp [hi, hov]

end Simulator

namespace Simulator

theorem hintTry_shape {pred : Pred} {pods0 : List Pod} {allNodes : List Node}
    {banned : String} {oldHints : Hints} {st : PlaceState} {pod : Pod}
    {b : Bool} {st' : PlaceState}
    (h : hintTry pred pods0 allNodes banned oldHints st pod = some (b, st')) :
    (b = false ∧ st' = st) ∨
    ∃ hn, tryNodeForPod pred pods0 allNodes st hn pod = some (b, st') := by
  unfold hintTry at h
  cases hg : assocGet oldHints (podKey pod) with
  | none =>
    rw [hg] at h
    injection h with h
    injection h with h1 h2
    exact Or.inl ⟨h1.symm, h2.symm⟩
  | some hn =>
    rw [hg] at h
    simp only [] at h
    by_cases hb : hn = banned
    · rw [if_pos hb] at h
      injection h with h
      injection h with h1 h2
      exact Or.inl ⟨h1.symm, h2.symm⟩
    · rw [if_neg hb] at h
      exact Or.inr ⟨hn, h⟩

theorem hintTry_hints_mono {pred : Pred} {pods0 : List Pod} {allNodes : List Node}
    {banned : String} {oldHints : Hints} {st : PlaceState} {pod : Pod}
    {b : Bool} {st' : PlaceState}
    (h : hintTry pred pods0 allNodes banned oldHints st pod = some (b, st'))
    (k : String) (hk : (assocGet st.hints k).isSome = true) :
    (assocGet st'.hints k).isSome = true := by
  rcases hintTry_shape h with ⟨_, rfl⟩ | ⟨hn, ht⟩
  · exact hk
  · exact tryNodeForPod_hints_mono ht k hk

theorem hintTry_heapFrame {pred : Pred} {pods0 : List Pod} {allNodes : List Node}
    {banned : String} {oldHints : Hints} {st : PlaceState} {pod : Pod}
    {b : Bool} {st' : PlaceState} {h0 : Heap}
    (h : hintTry pred pods0 allNodes banned oldHints st pod = some (b, st'))
    (hf : heapFrame h0 st.heap) : heapFrame h0 st'.heap := by
  rcases hintTry_shape h with ⟨_, rfl⟩ | ⟨hn, ht⟩
  · exact hf
  · exact tryNodeForPod_heapFrame ht hf

theorem hintTry_hints_write {pred : Pred} {pods0 : List Pod} {allNodes : List Node}
    {banned : String} {oldHints : Hints} {st : PlaceState} {pod : Pod}
    {st' : PlaceState}
    (h : hintTry pred pods0 allNodes banned oldHints st pod = some (true, st')) :
    (assocGet st'.hints (podKey pod)).isSome = true := by
  rcases hintTry_shape h with ⟨hb, _⟩ | ⟨hn, ht⟩
  · cases hb
  · exact tryNodeForPod_hints_write ht

theorem hintTry_indep {pred : Pred} {pods0 : List Pod} {allNodes : List Node}
    {banned : String} {oldHints : Hints} {st st2 : PlaceState} {pod : Pod}
    (hov : st.overlay = st2.overlay) :
    Option.map (fun p => (p.1, p.2.overlay))
        (hintTry pred pods0 allNodes banned oldHints st pod) =
      Option.map (fun p => (p.1, p.2.overlay))
        (hintTry pred pods0 allNodes banned oldHints st2 pod) := by
  unfold hintTry
  cases assocGet oldHints (podKey pod) with
  | none => simp [hov]
  | some hn =>
    by_cases hb : hn = banned
    · simp [hb, hov]
    · simp only [if_neg hb]
      exact tryNodeForPod_indep hov

theorem scanNodes_hints_mono {pred : Pred} {pods0 : List Pod}
    {allNodes : List Node} {banned : String} {pod : Pod} {nodes : List Node} :
    ∀ {st st' : PlaceState} {b : Bool},
      scanNodes pred pods0 allNodes banned pod nodes st = some (b, st') →
      ∀ k, (assocGet st.hints k).isSome = true →
        (assocGet st'.hints k).isSome = true := by
  induction nodes with
  | nil =>
    intro st st' b h k hk
    rw [scanNodes] at h
    injection h with h
    injection h with h1 h2
    subst h2
    exact hk
  | cons nd rest ih =>
    intro st st' b h k hk
    rw [scanNodes] at h
    by_cases hb : nd.name = banned
    · rw [if_pos hb] at h
      exact ih h k hk
    · rw [if_neg hb] at h
      cases ht : tryNodeForPod pred pods0 allNodes st nd.name pod with
      | none => rw [ht] at h; cases h
      | some p =>
        obtain ⟨b1, st1⟩ := p
        rw [ht] at h
        cases b1 with
        | true =>
          injection h with h
          injection h with h1 h2
          subst h2
          exact tryNodeForPod_hints_mono ht k hk
        | false =>
          exact ih h k (tryNodeForPod_hints_mono ht k hk)

theorem scanNodes_heapFrame {pred : Pred} {pods0 : List Pod}
    {allNodes : List Node} {banned : String} {pod : Pod} {nodes : List Node} :
    ∀ {st st' : PlaceState} {b : Bool} {h0 : Heap},
      scanNodes pred pods0 allNodes banned pod nodes st = some (b, st') →
      heapFrame h0 st.heap → heapFrame h0 st'.heap := by
  induction nodes with
  | nil =>
    intro st st' b h0 h hf
    rw [scanNodes] at h
    injection h with h
    injection h with h1 h2
    subst h2
    exact hf
  | cons nd rest ih =>
    intro st st' b h0 h hf
    rw [scanNodes] at h
    by_cases hb : nd.name = banned
    · rw [if_pos hb] at h
      exact ih h hf
    · rw [if_neg hb] at h
      cases ht : tryNodeForPod pred pods0 allNodes st nd.name pod with
      | none => rw [ht] at h; cases h
      | some p =>
        obtain ⟨b1, st1⟩ := p
        rw [ht] at h
        cases b1 with
        | true =>
          injection h with h
          injection h with h1 h2
          subst h2
          exact tryNodeForPod_heapFrame ht hf
        | false =>
          exact ih h (tryNodeForPod_heapFrame ht hf)

theorem scanNodes_hints_write {pred : Pred} {pods0 : List Pod}
    {allNodes : List Node} {banned : String} {pod : Pod} {nodes : List Node} :
    ∀ {st st' : PlaceState},
      scanNodes pred pods0 allNodes banned pod nodes st = some (true, st') →
      (assocGet st'.hints (podKey pod)).isSome = true := by
  induction nodes with
  | nil =>
    intro st st' h
    rw [scanNodes] at h
    injection h with h
    injection h with h1 h2
    cases h1
  | cons nd rest ih =>
    intro st st' h
    rw [scanNodes] at h
    by_cases hb : nd.name = banned
    · rw [if_pos hb] at h
      exact ih h
    · rw [if_neg hb] at h
      cases ht : tryNodeForPod pred pods0 allNodes st nd.name pod with
      | none => rw [ht] at h; cases h
      | some p =>
        obtain ⟨b1, st1⟩ := p
        rw [ht] at h
        cases b1 with
        | true =>
          injection h with h
          injection h with h1 h2
          subst h2
          exact tryNodeForPod_hints_write ht
        | false =>
          exact ih h

theorem scanNodes_indep {pred : Pred} {pods0 : List Pod}
    {allNodes : List Node} {banned : String} {pod : Pod} {nodes : List Node} :
    ∀ {st st2 : PlaceState}, st.overlay = st2.overlay →
      Option.map (fun p => (p.1, p.2.overlay))
          (scanNodes pred pods0 allNodes banned pod nodes st) =
        Option.map (fun p => (p.1, p.2.overlay))
          (scanNodes pred pods0 allNodes banned pod nodes st2) := by
  induction nodes with
  | nil =>
    intro st st2 hov
    rw [scanNodes, scanNodes]
    simp [hov]
  | cons nd rest ih =>
    intro st st2 hov
    rw [scanNodes, scanNodes]
    by_cases hb : nd.name = banned
    · rw [if_pos hb, if_pos hb]
      exact ih hov
    · rw [if_neg hb, if_neg hb]
      have htr := @tryNodeForPod_indep pred pods0 allNodes st st2 nd.name pod hov
      cases ht : tryNodeForPod pred pods0 allNodes st nd.name pod with
      | none =>
        rw [ht] at htr
        cases ht2 : tryNodeForPod pred pods0 allNodes st2 nd.name pod with
        | none => rfl
        | some p2 => rw [ht2] at htr; cases htr
      | some p =>
        obtain ⟨b1, st1⟩ := p
        rw [ht] at htr
        cases ht2 : tryNodeForPod pred pods0 allNodes st2 nd.name pod with
        | none => rw [ht2] at htr; cases htr
        | some p2 =>
          obtain ⟨b2, st21⟩ := p2
          rw [ht2] at htr
          simp only [Option.map_some'] at htr
          injection htr with htr
          have hb12 : b1 = b2 := congrArg Prod.fst htr
          have hov1 : st1.overlay = st21.overlay := congrArg Prod.snd htr
          subst hb12
          cases b1 with
          | true => simp [hov1]
          | false => exact ih hov1
end Simulator

namespace Simulator

theorem placePods_hints_mono {pred : Pred} {pods0 : List Pod}
    {allNodes : List Node} {banned : String} {oldHints : Hints}
    {pods : List Pod} :
    ∀ {st st' : PlaceState} {b : Bool},
      placePods pred pods0 allNodes banned oldHints pods st = some (b, st') →
      ∀ k, (assocGet st.hints k).isSome = true →
        (assocGet st'.hints k).isSome = true := by
  induction pods with
  | nil =>
    intro st st' b h k hk
    rw [placePods] at h
    injection h with h
    injection h with h1 h2
    subst h2
    exact hk
  | cons pod0 rest ih =>
    intro st st' b h k hk
    rw [placePods] at h
    cases hh : hintTry pred pods0 allNodes banned oldHints st
        { pod0 with nodeName := "" } with
    | none => rw [hh] at h; cases h
    | some p =>
      obtain ⟨b1, st1⟩ := p
      rw [hh] at h
      cases b1 with
      | true => exact ih h k (hintTry_hints_mono hh k hk)
      | false =>
        simp only [] at h
        have hk1 := hintTry_hints_mono hh k hk
        cases hsc : scanNodes pred pods0 allNodes banned
            { pod0 with nodeName := "" } allNodes st1 with
        | none => rw [hsc] at h; cases h
        | some p2 =>
          obtain ⟨b2, st2⟩ := p2
          rw [hsc] at h
          cases b2 with
          | true => exact ih h k (scanNodes_hints_mono hsc k hk1)
          | false =>
            injection h with h
            injection h with h1 h2
            subst h2
            exact scanNodes_hints_mono hsc k hk1

theorem placePods_heapFrame {pred : Pred} {pods0 : List Pod}
    {allNodes : List Node} {banned : String} {oldHints : Hints}
    {pods : List Pod} :
    ∀ {st st' : PlaceState} {b : Bool} {h0 : Heap},
      placePods pred pods0 allNodes banned oldHints pods st = some (b, st') →
      heapFrame h0 st.heap → heapFrame h0 st'.heap := by
  induction pods with
  | nil =>
    intro st st' b h0 h hf
    rw [placePods] at h
    injection h with h
    injection h with h1 h2
    subst h2
    exact hf
  | cons pod0 rest ih =>
    intro st st' b h0 h hf
    rw [placePods] at h
    cases hh : hintTry pred pods0 allNodes banned oldHints st
        { pod0 with nodeName := "" } with
    | none => rw [hh] at h; cases h
    | some p =>
      obtain ⟨b1, st1⟩ := p
      rw [hh] at h
      cases b1 with
      | true => exact ih h (hintTry_heapFrame hh hf)
      | false =>
        simp only [] at h
        have hf1 := hintTry_heapFrame hh hf
        cases hsc : scanNodes pred pods0 allNodes banned
            { pod0 with nodeName := "" } allNodes st1 with
        | none => rw [hsc] at h; cases h
        | some p2 =>
          obtain ⟨b2, st2⟩ := p2
          rw [hsc] at h
          cases b2 with
          | true => exact ih h (scanNodes_heapFrame hsc hf1)
          | false =>
            injection h with h
            injection h with h1 h2
            subst h2
            exact scanNodes_heapFrame hsc hf1

theorem placePods_writes_all {pred : Pred} {pods0 : List Pod}
    {allNodes : List Node} {banned : String} {oldHints : Hints}
    {pods : List Pod} :
    ∀ {st st' : PlaceState},
      placePods pred pods0 allNodes banned oldHints pods st = some (true, st') →
      ∀ p ∈ pods, (assocGet st'.hints (podKey p)).isSome = true := by
  induction pods with
  | nil =>
    intro st st' h p hp
    cases hp
  | cons pod0 rest ih =>
    intro st st' h p hp
    rw [placePods] at h
    cases hh : hintTry pred pods0 allNodes banned oldHints st
        { pod0 with nodeName := "" } with
    | none => rw [hh] at h; cases h
    | some q =>
      obtain ⟨b1, st1⟩ := q
      rw [hh] at h
      rcases List.mem_cons.mp hp with rfl | hmem
      · cases b1 with
        | true =>
          have hw := hintTry_hints_write hh
          rw [podKey_clear] at hw
          exact placePods_hints_mono h (podKey p) hw
        | false =>
          simp only [] at h
          cases hsc : scanNodes pred pods0 allNodes banned
              { p with nodeName := "" } allNodes st1 with
          | none => rw [hsc] at h; cases h
          | some q2 =>
            obtain ⟨b2, st2⟩ := q2
            rw [hsc] at h
            cases b2 with
            | true =>
              have hw := scanNodes_hints_write hsc
              rw [podKey_clear] at hw
              exact placePods_hints_mono h (podKey p) hw
            | false =>
              injection h with h
              injection h with h1 h2
              cases h1
      · cases b1 with
        | true => exact ih h p hmem
        | false =>
          simp only [] at h
          cases hsc : scanNodes pred pods0 allNodes banned
              { pod0 with nodeName := "" } allNodes st1 with
          | none => rw [hsc] at h; cases h
          | some q2 =>
            obtain ⟨b2, st2⟩ := q2
            rw [hsc] at h
            cases b2 with
            | true => exact ih h p hmem
            | false =>
              injection h with h
              injection h with h1 h2
              cases h1

theorem placePods_indep {pred : Pred} {pods0 : List Pod}
    {allNodes : List Node} {banned : String} {oldHints : Hints}
    {pods : List Pod} :
    ∀ {st st2 : PlaceState}, st.overlay = st2.overlay →
      Option.map (fun p => (p.1, p.2.overlay))
          (placePods pred pods0 allNodes banned oldHints pods st) =
        Option.map (fun p => (p.1, p.2.overlay))
          (placePods pred pods0 allNodes banned oldHints pods st2) := by
  induction pods with
  | nil =>
    intro st st2 hov
    rw [placePods, placePods]
    simp [hov]
  | cons pod0 rest ih =>
    intro st st2 hov
    rw [placePods, placePods]
    have hht := @hintTry_indep pred pods0 allNodes banned oldHints st st2
      { pod0 with nodeName := "" } hov
    cases hh : hintTry pred pods0 allNodes banned oldHints st
        { pod0 with nodeName := "" } with
    | none =>
      rw [hh] at hht
      cases hh2 : hintTry pred pods0 allNodes banned oldHints st2
          { pod0 with nodeName := "" } with
      | none => rfl
      | some p2 => rw [hh2] at hht; cases hht
    | some p =>
      obtain ⟨b1, st1⟩ := p
      rw [hh] at hht
      cases hh2 : hintTry pred pods0 allNodes banned oldHints st2
          { pod0 with nodeName := "" } with
      | none => rw [hh2] at hht; cases hht
      | some p2 =>
        obtain ⟨b2, st21⟩ := p2
        rw [hh2] at hht
        simp only [Option.map_some'] at hht
        injection hht with hht
        have hb12 : b1 = b2 := congrArg Prod.fst hht
        have hov1 : st1.overlay = st21.overlay := congrArg Prod.snd hht
        subst hb12
        cases b1 with
        | true => exact ih hov1
        | false =>
          simp only []
          have hsc := @scanNodes_indep pred pods0 allNodes banned
            { pod0 with nodeName := "" } allNodes st1 st21 hov1
          cases hs : scanNodes pred pods0 allNodes banned
              { pod0 with nodeName := "" } allNodes st1 with
          | none =>
            rw [hs] at hsc
            cases hs2 : scanNodes pred pods0 allNodes banned
                { pod0 with nodeName := "" } allNodes st21 with
            | none => rfl
            | some q2 => rw [hs2] at hsc; cases hsc
          | some q =>
            obtain ⟨c1, su1⟩ := q
            rw [hs] at hsc
            cases hs2 : scanNodes pred pods0 allNodes banned
                { pod0 with nodeName := "" } allNodes st21 with
            | none => rw [hs2] at hsc; cases hsc
            | some q2 =>
              obtain ⟨c2, su2⟩ := q2
              rw [hs2] at hsc
              simp only [Option.map_some'] at hsc
              injection hsc with hsc
              have hc12 : c1 = c2 := congrArg Prod.fst hsc
              have hov2 : su1.overlay = su2.overlay := congrArg Prod.snd hsc
              subst hc12
              cases c1 with
              | true => exact ih hov2
              | false => simp [hov2]

end Simulator

namespace Simulator

theorem findPlaceFor_hints_mono {pred : Pred} {pods0 : List Pod}
    {allNodes : List Node} {banned : String} {oldHints : Hints}
    {ps : List Pod} {hints hints1 : Hints} {heap heap1 : Heap} {b : Bool}
    (h : findPlaceFor pred pods0 allNodes banned oldHints ps hints heap =
      some (b, hints1, heap1))
    (k : String) (hk : (assocGet hints k).isSome = true) :
    (assocGet hints1 k).isSome = true := by
  unfold findPlaceFor at h
  cases hp : placePods pred pods0 allNodes banned oldHints ps
      { overlay := [], hints := hints, heap := heap } with
  | none => rw [hp] at h; cases h
  | some q =>
    obtain ⟨b1, st1⟩ := q
    rw [hp] at h
    injection h with h
    injection h with h1 h2
    injection h2 with h2 h3
    subst h2
    exact placePods_hints_mono hp k hk

theorem findPlaceFor_heapFrame {pred : Pred} {pods0 : List Pod}
    {allNodes : List Node} {banned : String} {oldHints : Hints}
    {ps : List Pod} {hints hints1 : Hints} {heap heap1 : Heap} {b : Bool}
    {h0 : Heap}
    (h : findPlaceFor pred pods0 allNodes banned oldHints ps hints heap =
      some (b, hints1, heap1))
    (hf : heapFrame h0 heap) : heapFrame h0 heap1 := by
  unfold findPlaceFor at h
  cases hp : placePods pred pods0 allNodes banned oldHints ps
      { overlay := [], hints := hints, heap := heap } with
  | none => rw [hp] at h; cases h
  | some q =>
    obtain ⟨b1, st1⟩ := q
    rw [hp] at h
    injection h with h
    injection h with h1 h2
    injection h2 with h2 h3
    subst h3
    exact placePods_heapFrame hp hf

theorem findPlaceFor_writes_all {pred : Pred} {pods0 : List Pod}
    {allNodes : List Node} {banned : String} {oldHints : Hints}
    {ps : List Pod} {hints hints1 : Hints} {heap heap1 : Heap}
    (h : findPlaceFor pred pods0 allNodes banned oldHints ps hints heap =
      some (true, hints1, heap1)) :
    ∀ p ∈ ps, (assocGet hints1 (podKey p)).isSome = true := by
  unfold findPlaceFor at h
  cases hp : placePods pred pods0 allNodes banned oldHints ps
      { overlay := [], hints := hints, heap := heap } with
  | none => rw [hp] at h; cases h
  | some q =>
    obtain ⟨b1, st1⟩ := q
    rw [hp] at h
    injection h with h
    injection h with h1 h2
    injection h2 with h2 h3
    subst h1
    subst h2
    exact placePods_writes_all hp

theorem findPlaceFor_fst_indep (pred : Pred) (pods0 : List Pod)
    (allNodes : List Node) (banned : String) (oldHints : Hints)
    (ps : List Pod) (hints1 hints2 : Hints) (heap1 heap2 : Heap) :
    Option.map (fun r => r.1)
        (findPlaceFor pred pods0 allNodes banned oldHints ps hints1 heap1) =
      Option.map (fun r => r.1)
        (findPlaceFor pred pods0 allNodes banned oldHints ps hints2 heap2) := by
  unfold findPlaceFor
  have hind := @placePods_indep pred pods0 allNodes banned oldHints ps
    { overlay := [], hints := hints1, heap := heap1 }
    { overlay := [], hints := hints2, heap := heap2 } rfl
  cases hp : placePods pred pods0 allNodes banned oldHints ps
      { overlay := [], hints := hints1, heap := heap1 } with
  | none =>
    rw [hp] at hind
    cases hp2 : placePods pred pods0 allNodes banned oldHints ps
        { overlay := [], hints := hints2, heap := heap2 } with
    | none => rfl
    | some q2 => rw [hp2] at hind; cases hind
  | some q =>
    obtain ⟨b1, st1⟩ := q
    rw [hp] at hind
    cases hp2 : placePods pred pods0 allNodes banned oldHints ps
        { overlay := [], hints := hints2, heap := heap2 } with
    | none => rw [hp2] at hind; cases hind
    | some q2 =>
      obtain ⟨b2, st2⟩ := q2
      rw [hp2] at hind
      simp only [Option.map_some'] at hind
      injection hind with hind
      have hb : b1 = b2 := congrArg Prod.fst hind
      subst hb
      simp

end Simulator

namespace Simulator

theorem candidateOK_of_run {pred : Pred} {pods0 : List Pod}
    {allNodes : List Node} {fastCheck : Bool} {fo : PodsOracle}
    {dro : DrainOracle} {oldHints : Hints} {node : Node} {ps : List Pod}
    {hints h2 : Hints} {heap hp2 : Heap} {b : Bool}
    (hor : podsToMoveOf fastCheck fo dro pods0 node = some ps)
    (h : findPlaceFor pred pods0 allNodes node.name oldHints ps hints heap =
      some (b, h2, hp2)) :
    candidateOK pred pods0 allNodes fastCheck fo dro oldHints node = b := by
  unfold candidateOK
  rw [hor]
  simp only []
  have hind := findPlaceFor_fst_indep pred pods0 allNodes node.name oldHints ps
    hints [] heap (initHeap allNodes)
  rw [h] at hind
  cases hb : findPlaceFor pred pods0 allNodes node.name oldHints ps []
      (initHeap allNodes) with
  | none => rw [hb] at hind; cases hind
  | some q =>
    obtain ⟨b2, h22, hp22⟩ := q
    rw [hb] at hind
    simp only [Option.map_some'] at hind
    injection hind with hind
    simp [hind]

theorem findLoop_filter {pred : Pred} {pods0 : List Pod} {allNodes : List Node}
    {fastCheck : Bool} {fo : PodsOracle} {dro : DrainOracle} {oldHints : Hints}
    {maxCount : Nat} {cands : List Node} :
    ∀ {result : List Node} {hints : Hints} {heap : Heap}
      {res : List Node} {h1 : Hints} {hp : Heap},
      findLoop pred pods0 allNodes fastCheck fo dro oldHints maxCount cands
        result hints heap = some (res, h1, hp) →
      res = result ++
        (cands.filter
          (candidateOK pred pods0 allNodes fastCheck fo dro oldHints)).take
          (max (maxCount - result.length) 1) := by
  induction cands with
  | nil =>
    intro result hints heap res h1 hp h
    rw [findLoop] at h
    injection h with h
    injection h with hres h2
    subst hres
    simp
  | cons node rest ih =>
    intro result hints heap res h1 hp h
    rw [findLoop] at h
    cases hor : podsToMoveOf fastCheck fo dro pods0 node with
    | none =>
      rw [hor] at h
      have hok : candidateOK pred pods0 allNodes fastCheck fo dro oldHints node
          = false := by
        unfold candidateOK
        rw [hor]
      rw [ih h, List.filter_cons]
      simp [hok]
    | some ps =>
      rw [hor] at h
      simp only [] at h
      cases hf : findPlaceFor pred pods0 allNodes node.name oldHints ps hints heap with
      | none => rw [hf] at h; cases h
      | some q =>
        obtain ⟨b, h2, hp2⟩ := q
        rw [hf] at h
        have hok := candidateOK_of_run hor hf
        cases b with
        | false =>
          simp only [] at h
          rw [ih h, List.filter_cons]
          simp [hok]
        | true =>
          simp only [] at h
          by_cases hbreak : maxCount ≤ (result ++ [node]).length
          · rw [if_pos hbreak] at h
            injection h with h
            injection h with hres h2
            subst hres
            have hlen : (result ++ [node]).length = result.length + 1 := by simp
            rw [hlen] at hbreak
            have hk : max (maxCount - result.length) 1 = 1 := by omega
            rw [List.filter_cons]
            simp only [hok, if_pos, hk]
            simp
          · rw [if_neg hbreak] at h
            have hres := ih h
            have hlen : (result ++ [node]).length = result.length + 1 := by simp
            rw [hlen] at hres hbreak
            have hk : max (maxCount - result.length) 1 =
                (max (maxCount - (result.length + 1)) 1) + 1 := by omega
            rw [List.filter_cons]
            simp only [hok]
            simp only [if_pos]
            rw [hk, List.take_succ_cons, hres]
            simp

theorem findLoop_complete {pred : Pred} {pods0 : List Pod}
    {allNodes : List Node} {fastCheck : Bool} {fo : PodsOracle}
    {dro : DrainOracle} {oldHints : Hints} {maxCount : Nat}
    {cands : List Node} :
    ∀ {result : List Node} {hints : Hints} {heap : Heap}
      {res : List Node} {h1 : Hints} {hp : Heap},
      findLoop pred pods0 allNodes fastCheck fo dro oldHints maxCount cands
        result hints heap = some (res, h1, hp) →
      (∀ nd ∈ result, ∃ ps,
        podsToMoveOf fastCheck fo dro pods0 nd = some ps ∧
        ∀ p ∈ ps, (assocGet hints (podKey p)).isSome = true) →
      ∀ nd ∈ res, ∃ ps,
        podsToMoveOf fastCheck fo dro pods0 nd = some ps ∧
        ∀ p ∈ ps, (assocGet h1 (podKey p)).isSome = true := by
  induction cands with
  | nil =>
    intro result hints heap res h1 hp h hinv
    rw [findLoop] at h
    injection h with h
    injection h with hres h2
    injection h2 with h2 h3
    subst hres
    subst h2
    exact hinv
  | cons node rest ih =>
    intro result hints heap res h1 hp h hinv
    rw [findLoop] at h
    cases hor : podsToMoveOf fastCheck fo dro pods0 node with
    | none =>
      rw [hor] at h
      exact ih h hinv
    | some ps =>
      rw [hor] at h
      simp only [] at h
      cases hf : findPlaceFor pred pods0 allNodes node.name oldHints ps hints heap with
      | none => rw [hf] at h; cases h
      | some q =>
        obtain ⟨b, h2, hp2⟩ := q
        rw [hf] at h
        cases b with
        | false =>
          simp only [] at h
          refine ih h ?_
          intro nd hnd
          obtain ⟨ps2, hps2, hall⟩ := hinv nd hnd
          exact ⟨ps2, hps2, fun p hpmem =>
            findPlaceFor_hints_mono hf (podKey p) (hall p hpmem)⟩
        | true =>
          simp only [] at h
          have hinv2 : ∀ nd ∈ result ++ [node], ∃ ps2,
              podsToMoveOf fastCheck fo dro pods0 nd = some ps2 ∧
              ∀ p ∈ ps2, (assocGet h2 (podKey p)).isSome = true := by
            intro nd hnd
            rcases List.mem_append.mp hnd with hmem | hmem
            · obtain ⟨ps2, hps2, hall⟩ := hinv nd hmem
              exact ⟨ps2, hps2, fun p hpmem =>
                findPlaceFor_hints_mono hf (podKey p) (hall p hpmem)⟩
            · have hnd2 : nd = node := by simpa using hmem
              subst hnd2
              exact ⟨ps, hor, findPlaceFor_writes_all hf⟩
          by_cases hbreak : maxCount ≤ (result ++ [node]).length
          · rw [if_pos hbreak] at h
            injection h with h
            injection h with hres h3
            injection h3 with h3 h4
            subst hres
            subst h3
            exact hinv2
          · rw [if_neg hbreak] at h
            exact ih h hinv2

theorem findLoop_heapFrame {pred : Pred} {pods0 : List Pod}
    {allNodes : List Node} {fastCheck : Bool} {fo : PodsOracle}
    {dro : DrainOracle} {oldHints : Hints} {maxCount : Nat}
    {cands : List Node} :
    ∀ {result : List Node} {hints : Hints} {heap : Heap}
      {res : List Node} {h1 : Hints} {hp : Heap} {h0 : Heap},
      findLoop pred pods0 allNodes fastCheck fo dro oldHints maxCount cands
        result hints heap = some (res, h1, hp) →
      heapFrame h0 heap → heapFrame h0 hp := by
  induction cands with
  | nil =>
    intro result hints heap res h1 hp h0 h hf
    rw [findLoop] at h
    injection h with h
    injection h with hres h2
    injection h2 with h2 h3
    subst h3
    exact hf
  | cons node rest ih =>
    intro result hints heap res h1 hp h0 h hf
    rw [findLoop] at h
    cases hor : podsToMoveOf fastCheck fo dro pods0 node with
    | none =>
      rw [hor] at h
      exact ih h hf
    | some ps =>
      rw [hor] at h
      simp only [] at h
      cases hfp : findPlaceFor pred pods0 allNodes node.name oldHints ps hints heap with
      | none => rw [hfp] at h; cases h
      | some q =>
        obtain ⟨b, h2, hp2⟩ := q
        rw [hfp] at h
        cases b with
        | false =>
          simp only [] at h
          exact ih h (findPlaceFor_heapFrame hfp hf)
        | true =>
          simp only [] at h
          by_cases hbreak : maxCount ≤ (result ++ [node]).length
          · rw [if_pos hbreak] at h
            injection h with h
            injection h with hres h3
            injection h3 with h3 h4
            subst h4
            exact findPlaceFor_heapFrame hfp hf
          · rw [if_neg hbreak] at h
            exact ih h (findPlaceFor_heapFrame hfp hf)

end Simulator

namespace Simulator

/-- Claim C1: whenever `FindNodesToRemove` returns, every node in the
removable list had its required-to-move pods computed successfully, and
every one of those pods has a placement entry recorded in the returned
hints map — no node is returned while any of its pods lacks one. -/
theorem findNodesToRemove_complete_placement
    (candidates allNodes : List Node) (pods : List Pod) (pred : Pred)
    (maxCount : Nat) (fastCheck : Bool) (fo : PodsOracle) (dro : DrainOracle)
    (oldHints : Hints) (result : List Node) (hints : Hints) (heap : Heap)
    (err : Option String)
    (hrun : FindNodesToRemove candidates allNodes pods pred maxCount fastCheck
      fo dro oldHints = some (result, hints, heap, err)) :
    ∀ node ∈ result, ∃ ps,
      podsToMoveOf fastCheck fo dro pods node = some ps ∧
      ∀ p ∈ ps, (assocGet hints (podKey p)).isSome = true := by
  unfold FindNodesToRemove at hrun
  cases hl : findLoop pred pods allNodes fastCheck fo dro oldHints maxCount
      candidates [] [] (initHeap allNodes) with
  | none => rw [hl] at hrun; cases hrun
  | some t =>
    obtain ⟨res, h1, hp⟩ := t
    rw [hl] at hrun
    injection hrun with hrun
    injection hrun with e1 hrun
    injection hrun with e2 hrun
    injection hrun with e3 e4
    subst e1
    subst e2
    exact findLoop_complete hl (by intro nd hnd; cases hnd)

/-- Witness for claim C1: in the example run the returned node `a` has
pods-to-move `[p1]`, and `p1` has a hint entry in the returned map. -/
theorem findNodesToRemove_complete_placement_witness :
    ∃ ps, podsToMoveOf true exFastOracle exDrainOracle exPods exNodeA = some ps ∧
      ∀ p ∈ ps, (assocGet exRunHints (podKey p)).isSome = true := by
  have hrun : FindNodesToRemove [exNodeA] [exNodeA, exNodeB] exPods exPred 1
      true exFastOracle exDrainOracle [] =
      some ([exNodeA], exRunHints, exRunHeap, none) := rfl
  exact findNodesToRemove_complete_placement [exNodeA] [exNodeA, exNodeB]
    exPods exPred 1 true exFastOracle exDrainOracle [] [exNodeA] exRunHints
    exRunHeap none hrun exNodeA (by simp)

/-- Claim C9: whenever `FindNodesToRemove` returns, its error component is
the literal nil; per-candidate failures only skip that candidate, so the
returned nodes are a subset of the candidates. -/
theorem findNodesToRemove_error_nil
    (candidates allNodes : List Node) (pods : List Pod) (pred : Pred)
    (maxCount : Nat) (fastCheck : Bool) (fo : PodsOracle) (dro : DrainOracle)
    (oldHints : Hints) (result : List Node) (hints : Hints) (heap : Heap)
    (err : Option String)
    (hrun : FindNodesToRemove candidates allNodes pods pred maxCount fastCheck
      fo dro oldHints = some (result, hints, heap, err)) :
    err = none ∧ result ⊆ candidates := by
  unfold FindNodesToRemove at hrun
  cases hl : findLoop pred pods allNodes fastCheck fo dro oldHints maxCount
      candidates [] [] (initHeap allNodes) with
  | none => rw [hl] at hrun; cases hrun
  | some t =>
    obtain ⟨res, h1, hp⟩ := t
    rw [hl] at hrun
    injection hrun with hrun
    injection hrun with e1 hrun
    injection hrun with e2 hrun
    injection hrun with e3 e4
    subst e1
    subst e4
    constructor
    · rfl
    · have hres := findLoop_filter hl
      simp only [List.nil_append] at hres
      rw [hres]
      intro x hx
      exact List.mem_of_mem_filter (List.mem_of_mem_take hx)

/-- Witness for claim C9 at the example run. -/
theorem findNodesToRemove_error_nil_witness :
    (none : Option String) = none ∧ [exNodeA] ⊆ [exNodeA] := by
  have hrun : FindNodesToRemove [exNodeA] [exNodeA, exNodeB] exPods exPred 1
      true exFastOracle exDrainOracle [] =
      some ([exNodeA], exRunHints, exRunHeap, none) := rfl
  exact findNodesToRemove_error_nil [exNodeA] [exNodeA, exNodeB] exPods exPred
    1 true exFastOracle exDrainOracle [] [exNodeA] exRunHints exRunHeap none hrun

/-- Counterexample to claim C7 as stated: in this run the only candidate
fails (pod `p2` fits nowhere, so the result is empty), yet the returned
hints map carries the entry the failed candidate wrote for `p1` before
failing — the failed candidate does contribute entries to the returned
hints map. -/
theorem findNodesToRemove_failed_candidate_hints_cex :
    FindNodesToRemove [exNodeA] [exNodeA, exNodeB] exPods exPred 1 true
        Option.some exDrainOracle [] =
      some ([], exRunHints, exRunHeap, none) ∧
    assocGet exRunHints "default/p1" = some "b" := by
  constructor
  · rfl
  · rfl

/-- Claim C7 (amended): a candidate for which some pod finds no feasible
destination fails as a whole, and its tentative placements are invisible
to later candidates — the outcome of `findPlaceFor` is independent of the
accumulated hints and heap, and the returned list is the per-candidate
filter of the candidates truncated at `maxCount` — but hint entries
already written (including by a failed candidate for the pods it placed
before failing) are never removed from the hints map. -/
theorem findNodesToRemove_candidate_independence :
    (∀ (pred : Pred) (pods0 : List Pod) (allNodes : List Node) (banned : String)
       (oldHints : Hints) (ps : List Pod) (hints1 hints2 : Hints)
       (heap1 heap2 : Heap),
       Option.map (fun r => r.1)
           (findPlaceFor pred pods0 allNodes banned oldHints ps hints1 heap1) =
         Option.map (fun r => r.1)
           (findPlaceFor pred pods0 allNodes banned oldHints ps hints2 heap2)) ∧
    (∀ (candidates allNodes : List Node) (pods : List Pod) (pred : Pred)
       (maxCount : Nat) (fastCheck : Bool) (fo : PodsOracle) (dro : DrainOracle)
       (oldHints : Hints) (result : List Node) (hints : Hints) (heap : Heap)
       (err : Option String),
       FindNodesToRemove candidates allNodes pods pred maxCount fastCheck fo
         dro oldHints = some (result, hints, heap, err) →
       result = (candidates.filter
         (candidateOK pred pods allNodes fastCheck fo dro oldHints)).take
           (max maxCount 1)) ∧
    (∀ (pred : Pred) (pods0 : List Pod) (allNodes : List Node) (banned : String)
       (oldHints : Hints) (ps : List Pod) (hints hints1 : Hints)
       (heap heap1 : Heap) (b : Bool),
       findPlaceFor pred pods0 allNodes banned oldHints ps hints heap =
         some (b, hints1, heap1) →
       ∀ k, (assocGet hints k).isSome = true →
         (assocGet hints1 k).isSome = true) := by
  refine ⟨findPlaceFor_fst_indep, ?_, ?_⟩
  · intro candidates allNodes pods pred maxCount fastCheck fo dro oldHints
      result hints heap err hrun
    unfold FindNodesToRemove at hrun
    cases hl : findLoop pred pods allNodes fastCheck fo dro oldHints maxCount
        candidates [] [] (initHeap allNodes) with
    | none => rw [hl] at hrun; cases hrun
    | some t =>
      obtain ⟨res, h1, hp⟩ := t
      rw [hl] at hrun
      injection hrun with hrun
      injection hrun with e1 hrun
      subst e1
      have hres := findLoop_filter hl
      simpa using hres
  · intro pred pods0 allNodes banned oldHints ps hints hints1 heap heap1 b h k hk
    exact findPlaceFor_hints_mono h k hk

/-- Witness for claim C7: the example run's result equals the
per-candidate filter of its candidate list. -/
theorem findNodesToRemove_candidate_independence_witness :
    [exNodeA] = ([exNodeA].filter
      (candidateOK exPred exPods [exNodeA, exNodeB] true exFastOracle
        exDrainOracle [])).take (max 1 1) := by
  have hrun : FindNodesToRemove [exNodeA] [exNodeA, exNodeB] exPods exPred 1
      true exFastOracle exDrainOracle [] =
      some ([exNodeA], exRunHints, exRunHeap, none) := rfl
  exact findNodesToRemove_candidate_independence.2.1 [exNodeA]
    [exNodeA, exNodeB] exPods exPred 1 true exFastOracle exDrainOracle []
    [exNodeA] exRunHints exRunHeap none hrun

/-- Claim C10: `FindNodesToRemove` mutates its input — whenever
`tryNodeForPod` finds an info for a destination node, the shared node
object's `Status.Allocatable` is overwritten with `Status.Capacity`
(whether or not the predicate passes), and the heap returned to the caller
differs from the input nodes only by such overwrites, which persist after
the function returns. -/
theorem findNodesToRemove_alloc_overwrite :
    (∀ (pred : Pred) (pods0 : List Pod) (allNodes : List Node)
       (st : PlaceState) (nodename : String) (pod : Pod) (b : Bool)
       (st' : PlaceState),
       evaluatedDest pods0 st nodename = true →
       tryNodeForPod pred pods0 allNodes st nodename pod = some (b, st') →
       st'.heap = heapSetAlloc st.heap nodename) ∧
    (∀ (candidates allNodes : List Node) (pods : List Pod) (pred : Pred)
       (maxCount : Nat) (fastCheck : Bool) (fo : PodsOracle) (dro : DrainOracle)
       (oldHints : Hints) (result : List Node) (hints : Hints) (heap : Heap)
       (err : Option String),
       FindNodesToRemove candidates allNodes pods pred maxCount fastCheck fo
         dro oldHints = some (result, hints, heap, err) →
       heapFrame (initHeap allNodes) heap) := by
  constructor
  · intro pred pods0 allNodes st nodename pod b st' hdest ht
    exact tryNodeForPod_heap_eq hdest ht
  · intro candidates allNodes pods pred maxCount fastCheck fo dro oldHints
      result hints heap err hrun
    unfold FindNodesToRemove at hrun
    cases hl : findLoop pred pods allNodes fastCheck fo dro oldHints maxCount
        candidates [] [] (initHeap allNodes) with
    | none => rw [hl] at hrun; cases hrun
    | some t =>
      obtain ⟨res, h1, hp⟩ := t
      rw [hl] at hrun
      injection hrun with hrun
      injection hrun with e1 hrun
      injection hrun with e2 hrun
      injection hrun with e3 e4
      subst e3
      exact findLoop_heapFrame hl (heapFrame_refl _)

/-- Witness for claim C10: a concrete `tryNodeForPod` call overwrites the
allocatable of node `b`, and the example run's final heap is an
allocatable-overwrite of the input nodes — with node `b`'s allocatable
visibly changed from 500 to its capacity 1000. -/
theorem findNodesToRemove_alloc_overwrite_witness :
    ({ overlay := [], hints := [],
       heap := heapSetAlloc (initHeap [exNodeA, exNodeB]) "b" } :
         PlaceState).heap =
      heapSetAlloc (initHeap [exNodeA, exNodeB]) "b" ∧
    heapFrame (initHeap [exNodeA, exNodeB]) exRunHeap ∧
    assocGet (initHeap [exNodeA, exNodeB]) "b" =
      some { capacity := [(.cpu, 1000)], allocatable := [(.cpu, 500)] } ∧
    assocGet exRunHeap "b" =
      some { capacity := [(.cpu, 1000)], allocatable := [(.cpu, 1000)] } := by
  refine ⟨?_, ?_, rfl, rfl⟩
  · exact findNodesToRemove_alloc_overwrite.1 (fun x y z => false) exPods
      [exNodeA, exNodeB]
      { overlay := [], hints := [], heap := initHeap [exNodeA, exNodeB] } "b"
      exPodP1 false
      { overlay := [], hints := [],
        heap := heapSetAlloc (initHeap [exNodeA, exNodeB]) "b" }
      (by decide) rfl
  · have hrun : FindNodesToRemove [exNodeA] [exNodeA, exNodeB] exPods exPred 1
        true Option.some exDrainOracle [] =
        some ([], exRunHints, exRunHeap, none) := rfl
    exact findNodesToRemove_alloc_overwrite.2 [exNodeA] [exNodeA, exNodeB]
      exPods exPred 1 true Option.some exDrainOracle [] [] exRunHints exRunHeap
      none hrun

end Simulator

namespace ScaleDownSpec

/-- Claim C8 (spec-modelled; `scale_down.go` is not in the corpus): the
unneeded-set update includes every empty candidate regardless of the cap,
and the number of non-empty candidates it includes never exceeds
`min(maxNonEmptyCandidates, max(totalNodes * poolRatio,
poolRatioMinCount))`. -/
theorem capCandidates_bound (emptyCands nonEmptyCands : List String)
    (totalNodes maxNonEmpty poolMinCount : Nat) (poolRatio : ℚ)
    (hr : 0 ≤ poolRatio) :
    (∀ e ∈ emptyCands,
      e ∈ capCandidates emptyCands nonEmptyCands totalNodes maxNonEmpty
        poolRatio poolMinCount) ∧
    ∃ t, capCandidates emptyCands nonEmptyCands totalNodes maxNonEmpty
        poolRatio poolMinCount = emptyCands ++ t ∧
      (∀ x ∈ t, x ∈ nonEmptyCands) ∧
      ((t.length : ℚ) ≤
        min (maxNonEmpty : ℚ)
          (max ((totalNodes : ℚ) * poolRatio) (poolMinCount : ℚ))) := by
  constructor
  · intro e he
    unfold capCandidates
    exact List.mem_append_left _ he
  · refine ⟨(nonEmptyCands.take
      (max (Nat.floor ((totalNodes : ℚ) * poolRatio)) poolMinCount)).take
        maxNonEmpty, rfl, ?_, ?_⟩
    · intro x hx
      exact List.mem_of_mem_take (List.mem_of_mem_take hx)
    · have hlen : ((nonEmptyCands.take
          (max (Nat.floor ((totalNodes : ℚ) * poolRatio)) poolMinCount)).take
            maxNonEmpty).length ≤ maxNonEmpty := by
        rw [List.length_take]
        exact min_le_left _ _
      have hlen2 : ((nonEmptyCands.take
          (max (Nat.floor ((totalNodes : ℚ) * poolRatio)) poolMinCount)).take
            maxNonEmpty).length ≤
          max (Nat.floor ((totalNodes : ℚ) * poolRatio)) poolMinCount := by
        rw [List.length_take, List.length_take]
        exact le_trans (min_le_right _ _) (min_le_left _ _)
      refine le_min (by exact_mod_cast hlen) ?_
      have hfl : ((Nat.floor ((totalNodes : ℚ) * poolRatio) : ℕ) : ℚ) ≤
          (totalNodes : ℚ) * poolRatio :=
        Nat.floor_le (mul_nonneg (Nat.cast_nonneg totalNodes) hr)
      have h3 : (((nonEmptyCands.take
          (max (Nat.floor ((totalNodes : ℚ) * poolRatio)) poolMinCount)).take
            maxNonEmpty).length : ℚ) ≤
          ((max (Nat.floor ((totalNodes : ℚ) * poolRatio)) poolMinCount : ℕ) : ℚ) := by
        exact_mod_cast hlen2
      refine le_trans h3 ?_
      rw [Nat.cast_max]
      exact max_le_max hfl le_rfl

/-- Witness for claim C8 at concrete lists and a fractional pool ratio. -/
theorem capCandidates_bound_witness :
    (∀ e ∈ ["e1", "e2"],
      e ∈ capCandidates ["e1", "e2"] ["n1", "n2", "n3"] 5 2 (1/2) 1) ∧
    ∃ t, capCandidates ["e1", "e2"] ["n1", "n2", "n3"] 5 2 (1/2) 1 =
        ["e1", "e2"] ++ t ∧
      (∀ x ∈ t, x ∈ ["n1", "n2", "n3"]) ∧
      ((t.length : ℚ) ≤ min (2 : ℚ) (max ((5 : ℚ) * (1/2)) (1 : ℚ))) :=
  capCandidates_bound ["e1", "e2"] ["n1", "n2", "n3"] 5 2 1 (1/2) (by norm_num)

end ScaleDownSpec

namespace Gce

theorem registerScan_refs {mig : Mig} {l : List MigInformation} {b : Bool}
    {l1 : List MigInformation} (h : registerScan mig l = some (b, l1)) :
    l1.map (fun mi => mi.config.gceRef) = l.map (fun mi => mi.config.gceRef) := by
  induction l generalizing b l1 with
  | nil => simp [registerScan] at h
  | cons mi rest ih =>
    by_cases hr : mi.config.gceRef = mig.gceRef
    · rw [registerScan, if_pos hr] at h
      by_cases hd : migDeepEqual mi.config mig
      · rw [if_pos hd] at h
        injection h with h1
        cases h1
        rfl
      · rw [if_neg hd] at h
        injection h with h1
        cases h1
        simp [hr]
    · rw [registerScan, if_neg hr] at h
      rcases Option.map_eq_some'.mp h with ⟨p, hp, hpe⟩
      cases hpe
      simp only [List.map_cons]
      rw [ih (by simpa using hp)]

theorem registerMig_mid (m : Manager) (g : Mig) :
    (RegisterMig m g).2.managerId = m.managerId ∧
    (RegisterMig m g).2.migCache = m.migCache := by
  unfold RegisterMig
  cases registerScan g m.migs with
  | none => exact ⟨rfl, rfl⟩
  | some p => exact ⟨rfl, rfl⟩

theorem registerMig_false_eq {m : Manager} {g : Mig}
    (h : (RegisterMig m g).1 = false) : (RegisterMig m g).2 = m := by
  unfold RegisterMig at h ⊢
  cases hs : registerScan g m.migs with
  | none => rw [hs] at h; cases h
  | some p =>
    obtain ⟨b, l1⟩ := p
    obtain ⟨mi, hfind, hb, hfl⟩ := registerScan_some hs
    rw [hs] at h
    simp only [] at h
    rw [hfl h]

theorem registerMig_false_mem {m : Manager} {g : Mig}
    (h : (RegisterMig m g).1 = false) : g.gceRef ∈ migsRefs m := by
  unfold RegisterMig at h
  cases hs : registerScan g m.migs with
  | none => rw [hs] at h; cases h
  | some p =>
    obtain ⟨b, l1⟩ := p
    obtain ⟨mi, hfind, hb, hfl⟩ := registerScan_some hs
    have hmem := List.mem_of_find?_eq_some hfind
    have heq := List.find?_some hfind
    unfold migsRefs
    refine List.mem_map.mpr ⟨mi, hmem, ?_⟩
    simpa using heq

theorem registerMig_refs_mem (m : Manager) (g : Mig) (r : GceRef) :
    r ∈ migsRefs (RegisterMig m g).2 ↔ (r ∈ migsRefs m ∨ r = g.gceRef) := by
  unfold RegisterMig migsRefs
  cases hs : registerScan g m.migs with
  | none =>
    simp only []
    simp [migsRefs]
  | some p =>
    obtain ⟨b, l1⟩ := p
    simp only []
    rw [registerScan_refs hs]
    have hmem : g.gceRef ∈ m.migs.map (fun mi => mi.config.gceRef) := by
      obtain ⟨mi, hfind, _, _⟩ := registerScan_some hs
      exact List.mem_map.mpr ⟨mi, List.mem_of_find?_eq_some hfind,
        by simpa using List.find?_some hfind⟩
    constructor
    · exact fun hm => Or.inl hm
    · rintro (hm | rfl)
      · exact hm
      · exact hmem

theorem registerMig_nodup {m : Manager} {g : Mig}
    (h : (migsRefs m).Nodup) : (migsRefs (RegisterMig m g).2).Nodup := by
  unfold RegisterMig migsRefs
  cases hs : registerScan g m.migs with
  | none =>
    simp only [List.map_append]
    have hno := registerScan_none.mp hs
    refine List.Nodup.append h (List.nodup_singleton _) ?_
    intro x hx hy
    simp only [List.map_cons, List.map_nil, List.mem_singleton] at hy
    subst hy
    obtain ⟨mi, hmi, href⟩ := List.mem_map.mp hx
    exact hno mi hmi href
  | some p =>
    obtain ⟨b, l1⟩ := p
    simp only []
    rw [registerScan_refs hs]
    exact h

theorem unregisterMig_migs (m : Manager) (g : Mig) :
    (UnregisterMig m g).2.migs =
      m.migs.filter (fun mi => ¬ mi.config.gceRef = g.gceRef) ∧
    (UnregisterMig m g).2.managerId = m.managerId ∧
    (UnregisterMig m g).2.migCache = m.migCache :=
  ⟨rfl, rfl, rfl⟩

end Gce

namespace Gce

theorem napUrlLoop_spec (cloud : Cloud) (pool : NodePool)
    (a : NodePoolAutoscaling) :
    ∀ (urls : List String) (acc : NapAcc),
      (napUrlLoop cloud pool a urls acc).ok = true →
      acc.ok = true ∧
      (napUrlLoop cloud pool a urls acc).seen =
        acc.seen ++ urls.filterMap cloud.parseIgUrl ∧
      (∀ r, r ∈ migsRefs (napUrlLoop cloud pool a urls acc).mgr ↔
        (r ∈ migsRefs acc.mgr ∨ r ∈ urls.filterMap cloud.parseIgUrl)) ∧
      ((migsRefs acc.mgr).Nodup →
        (migsRefs (napUrlLoop cloud pool a urls acc).mgr).Nodup) ∧
      (napUrlLoop cloud pool a urls acc).mgr.managerId = acc.mgr.managerId := by
  intro urls
  induction urls with
  | nil =>
    intro acc hok
    refine ⟨hok, by simp [napUrlLoop], ?_, fun hn => hn, rfl⟩
    intro r
    simp [napUrlLoop]
  | cons url rest ih =>
    intro acc hok
    rw [napUrlLoop] at hok ⊢
    cases hp : cloud.parseIgUrl url with
    | none =>
      rw [hp] at hok
      cases hok
    | some ref =>
      rw [hp] at hok
      simp only [] at hok ⊢
      obtain ⟨hok1, hseen, hrefs, hnd, hmid⟩ := ih _ hok
      refine ⟨hok1, ?_, ?_, ?_, ?_⟩
      · rw [hseen]
        simp [List.filterMap_cons, hp]
      · intro r
        rw [hrefs r, registerMig_refs_mem]
        simp only [List.filterMap_cons, hp]
        constructor
        · rintro ((hm | he) | hr2)
          · exact Or.inl hm
          · exact Or.inr (by simp [he, napMigOf])
          · exact Or.inr (List.mem_cons_of_mem _ hr2)
        · rintro (hm | hr2)
          · exact Or.inl (Or.inl hm)
          · rcases List.mem_cons.mp hr2 with rfl | hr3
            · exact Or.inl (Or.inr rfl)
            · exact Or.inr hr3
      · intro hn
        exact hnd (registerMig_nodup hn)
      · rw [hmid]
        exact (registerMig_mid _ _).1

theorem napUrlLoop_changed_false (cloud : Cloud) (pool : NodePool)
    (a : NodePoolAutoscaling) :
    ∀ (urls : List String) (acc : NapAcc),
      (napUrlLoop cloud pool a urls acc).ok = true →
      (napUrlLoop cloud pool a urls acc).changed = false →
      (napUrlLoop cloud pool a urls acc).mgr = acc.mgr ∧
      acc.changed = false ∧
      (∀ r ∈ urls.filterMap cloud.parseIgUrl, r ∈ migsRefs acc.mgr) := by
  intro urls
  induction urls with
  | nil =>
    intro acc hok hch
    exact ⟨rfl, hch, by simp⟩
  | cons url rest ih =>
    intro acc hok hch
    rw [napUrlLoop] at hok hch ⊢
    cases hp : cloud.parseIgUrl url with
    | none =>
      rw [hp] at hok
      cases hok
    | some ref =>
      rw [hp] at hok hch
      simp only [] at hok hch ⊢
      obtain ⟨hmgr, hch1, hrefs⟩ := ih _ hok hch
      have hor := Bool.or_eq_false_iff.mp hch1
      have hre := registerMig_false_eq hor.2
      refine ⟨?_, hor.1, ?_⟩
      · rw [hmgr, hre]
      · intro r hr
        simp only [List.filterMap_cons, hp] at hr
        rcases List.mem_cons.mp hr with rfl | hr2
        · have hm := registerMig_false_mem hor.2
          simpa [napMigOf] using hm
        · have h2 := hrefs r hr2
          rw [hre] at h2
          exact h2

end Gce

namespace Gce

theorem napPoolLoop_spec (cloud : Cloud) :
    ∀ (pools : List NodePool) (acc : NapAcc),
      (napPoolLoop cloud pools acc).ok = true →
      acc.ok = true ∧
      (napPoolLoop cloud pools acc).seen =
        acc.seen ++ derivedRefs cloud pools ∧
      (∀ r, r ∈ migsRefs (napPoolLoop cloud pools acc).mgr ↔
        (r ∈ migsRefs acc.mgr ∨ r ∈ derivedRefs cloud pools)) ∧
      ((migsRefs acc.mgr).Nodup →
        (migsRefs (napPoolLoop cloud pools acc).mgr).Nodup) ∧
      (napPoolLoop cloud pools acc).mgr.managerId = acc.mgr.managerId := by
  intro pools
  induction pools with
  | nil =>
    intro acc hok
    refine ⟨hok, by simp [napPoolLoop, derivedRefs], ?_, fun hn => hn, rfl⟩
    intro r
    simp [napPoolLoop, derivedRefs]
  | cons pool rest ih =>
    intro acc hok
    rw [napPoolLoop] at hok ⊢
    cases ha : pool.autoscaling with
    | none =>
      rw [ha] at hok
      obtain ⟨hok1, hseen, hrefs, hnd, hmid⟩ := ih _ hok
      have hd : derivedRefs cloud (pool :: rest) = derivedRefs cloud rest := by
        unfold derivedRefs
        simp [ha]
      rw [hd]
      exact ⟨hok1, hseen, hrefs, hnd, hmid⟩
    | some a =>
      rw [ha] at hok
      simp only [] at hok ⊢
      by_cases he : a.enabled
      · rw [if_pos he] at hok ⊢
        have hd : derivedRefs cloud (pool :: rest) =
            pool.instanceGroupUrls.filterMap cloud.parseIgUrl ++
              derivedRefs cloud rest := by
          unfold derivedRefs
          simp [ha, he]
        by_cases hargok :
            (napUrlLoop cloud pool a pool.instanceGroupUrls acc).ok = true
        · rw [if_pos hargok] at hok ⊢
          obtain ⟨hok1, hseen1, hrefs1, hnd1, hmid1⟩ :=
            napUrlLoop_spec cloud pool a pool.instanceGroupUrls acc hargok
          obtain ⟨hok2, hseen2, hrefs2, hnd2, hmid2⟩ := ih _ hok
          rw [hd]
          refine ⟨hok1, ?_, ?_, ?_, ?_⟩
          · rw [hseen2, hseen1]
            simp
          · intro r
            rw [hrefs2 r, hrefs1 r]
            constructor
            · rintro ((hm | hu) | hr2)
              · exact Or.inl hm
              · exact Or.inr (List.mem_append_left _ hu)
              · exact Or.inr (List.mem_append_right _ hr2)
            · rintro (hm | hr2)
              · exact Or.inl (Or.inl hm)
              · rcases List.mem_append.mp hr2 with hu | hr3
                · exact Or.inl (Or.inr hu)
                · exact Or.inr hr3
          · intro hn
            exact hnd2 (hnd1 hn)
          · rw [hmid2, hmid1]
        · rw [if_neg hargok] at hok
          exact absurd hok hargok
      · rw [if_neg he] at hok ⊢
        obtain ⟨hok1, hseen, hrefs, hnd, hmid⟩ := ih _ hok
        have hd : derivedRefs cloud (pool :: rest) = derivedRefs cloud rest := by
          unfold derivedRefs
          simp [ha, he]
        rw [hd]
        exact ⟨hok1, hseen, hrefs, hnd, hmid⟩

theorem napPoolLoop_changed_false (cloud : Cloud) :
    ∀ (pools : List NodePool) (acc : NapAcc),
      (napPoolLoop cloud pools acc).ok = true →
      (napPoolLoop cloud pools acc).changed = false →
      (napPoolLoop cloud pools acc).mgr = acc.mgr ∧
      acc.changed = false ∧
      (∀ r ∈ derivedRefs cloud pools, r ∈ migsRefs acc.mgr) := by
  intro pools
  induction pools with
  | nil =>
    intro acc hok hch
    refine ⟨rfl, hch, ?_⟩
    intro r hr
    simp [derivedRefs] at hr
  | cons pool rest ih =>
    intro acc hok hch
    rw [napPoolLoop] at hok hch ⊢
    cases ha : pool.autoscaling with
    | none =>
      rw [ha] at hok hch
      obtain ⟨hmgr, hch1, hrefs⟩ := ih _ hok hch
      have hd : derivedRefs cloud (pool :: rest) = derivedRefs cloud rest := by
        unfold derivedRefs
        simp [ha]
      rw [hd]
      exact ⟨hmgr, hch1, hrefs⟩
    | some a =>
      rw [ha] at hok hch
      simp only [] at hok hch ⊢
      by_cases he : a.enabled
      · rw [if_pos he] at hok hch ⊢
        have hd : derivedRefs cloud (pool :: rest) =
            pool.instanceGroupUrls.filterMap cloud.parseIgUrl ++
              derivedRefs cloud rest := by
          unfold derivedRefs
          simp [ha, he]
        by_cases hargok :
            (napUrlLoop cloud pool a pool.instanceGroupUrls acc).ok = true
        · rw [if_pos hargok] at hok hch ⊢
          obtain ⟨hmgr2, hch2, hrefs2⟩ := ih _ hok hch
          obtain ⟨hmgr1, hch1, hrefs1⟩ :=
            napUrlLoop_changed_false cloud pool a pool.instanceGroupUrls acc
              hargok hch2
          rw [hd]
          refine ⟨by rw [hmgr2, hmgr1], hch1, ?_⟩
          intro r hr
          rcases List.mem_append.mp hr with hu | hr2
          · exact hrefs1 r hu
          · have h2 := hrefs2 r hr2
            rw [hmgr1] at h2
            exact h2
        · rw [if_neg hargok] at hok
          exact absurd hok hargok
      · rw [if_neg he] at hok hch ⊢
        obtain ⟨hmgr, hch1, hrefs⟩ := ih _ hok hch
        have hd : derivedRefs cloud (pool :: rest) = derivedRefs cloud rest := by
          unfold derivedRefs
          simp [ha, he]
        rw [hd]
        exact ⟨hmgr, hch1, hrefs⟩

end Gce

namespace Gce

theorem napUnregisterPhase_migs (seen : List GceRef) :
    ∀ (snap : List MigInformation) (m : Manager) (ch : Bool),
      (napUnregisterPhase seen snap m ch).1.migs =
        m.migs.filter (fun mi =>
          seen.any (fun r => r = mi.config.gceRef) ||
          !(snap.any (fun mj => mj.config.gceRef = mi.config.gceRef))) ∧
      (napUnregisterPhase seen snap m ch).1.managerId = m.managerId ∧
      (napUnregisterPhase seen snap m ch).1.migCache = m.migCache := by
  intro snap
  induction snap with
  | nil =>
    intro m ch
    refine ⟨?_, rfl, rfl⟩
    rw [napUnregisterPhase]
    simp
  | cons mi0 rest ih =>
    intro m ch
    rw [napUnregisterPhase]
    by_cases hs : seen.any (fun r => r = mi0.config.gceRef) = true
    · rw [if_pos hs]
      obtain ⟨hm, hid, hc⟩ := ih m ch
      refine ⟨?_, hid, hc⟩
      rw [hm]
      apply List.filter_congr
      intro x hx
      by_cases hxe : mi0.config.gceRef = x.config.gceRef
      · have hsx : seen.any (fun r => r = x.config.gceRef) = true := by
          rw [← hxe]
          exact hs
        simp [hsx]
      · simp [hxe]
    · rw [if_neg hs]
      obtain ⟨hm, hid, hc⟩ := ih (UnregisterMig m mi0.config).2 true
      have hu := unregisterMig_migs m mi0.config
      refine ⟨?_, hid.trans hu.2.1, hc.trans hu.2.2⟩
      rw [hm, hu.1, List.filter_filter]
      apply List.filter_congr
      intro x hx
      by_cases hxe : mi0.config.gceRef = x.config.gceRef
      · have hsx : seen.any (fun r => r = x.config.gceRef) = false := by
          rw [← hxe]
          exact Bool.not_eq_true _ ▸ Bool.of_not_eq_true hs
        simp [hxe, hsx]
      · have hne : ¬ x.config.gceRef = mi0.config.gceRef :=
          fun he => hxe he.symm
        simp [hxe, hne]

theorem napUnregisterPhase_changed_true (seen : List GceRef) :
    ∀ (snap : List MigInformation) (m : Manager),
      (napUnregisterPhase seen snap m true).2 = true := by
  intro snap
  induction snap with
  | nil => intro m; rfl
  | cons mi0 rest ih =>
    intro m
    rw [napUnregisterPhase]
    by_cases hs : seen.any (fun r => r = mi0.config.gceRef) = true
    · rw [if_pos hs]
      exact ih m
    · rw [if_neg hs]
      exact ih _

theorem napUnregisterPhase_changed_false (seen : List GceRef) :
    ∀ (snap : List MigInformation) (m : Manager) (ch : Bool),
      (napUnregisterPhase seen snap m ch).2 = false →
      (napUnregisterPhase seen snap m ch).1 = m ∧ ch = false ∧
      ∀ mi ∈ snap, seen.any (fun r => r = mi.config.gceRef) = true := by
  intro snap
  induction snap with
  | nil =>
    intro m ch h
    exact ⟨rfl, h, by intro mi hmi; cases hmi⟩
  | cons mi0 rest ih =>
    intro m ch h
    rw [napUnregisterPhase] at h ⊢
    by_cases hs : seen.any (fun r => r = mi0.config.gceRef) = true
    · rw [if_pos hs] at h ⊢
      obtain ⟨h1, h2, h3⟩ := ih m ch h
      refine ⟨h1, h2, ?_⟩
      intro mi hmi
      rcases List.mem_cons.mp hmi with rfl | hmem
      · exact hs
      · exact h3 mi hmem
    · rw [if_neg hs] at h
      rw [napUnregisterPhase_changed_true seen rest _] at h
      cases h

end Gce

namespace Gce

theorem napPoolLoop_skip (cloud : Cloud) :
    ∀ (pools : List NodePool) (acc : NapAcc),
      napPoolLoop cloud pools acc =
        napPoolLoop cloud (pools.filter poolAutoscaled) acc := by
  intro pools
  induction pools with
  | nil => intro acc; rfl
  | cons pool rest ih =>
    intro acc
    rw [List.filter_cons]
    cases ha : pool.autoscaling with
    | none =>
      have hpa : poolAutoscaled pool = false := by
        unfold poolAutoscaled
        rw [ha]
      rw [hpa]
      simp only [Bool.false_eq_true, if_neg]
      rw [napPoolLoop, ha]
      exact ih acc
    | some a =>
      by_cases he : a.enabled
      · have hpa : poolAutoscaled pool = true := by
          unfold poolAutoscaled
          rw [ha]
          exact he
        rw [hpa, if_pos rfl]
        rw [napPoolLoop, napPoolLoop, ha]
        simp only [if_pos he]
        by_cases hok : (napUrlLoop cloud pool a pool.instanceGroupUrls acc).ok = true
        · rw [if_pos hok, if_pos hok]
          exact ih _
        · rw [if_neg hok, if_neg hok]
      · have hpa : poolAutoscaled pool = false := by
          unfold poolAutoscaled
          rw [ha]
          exact Bool.not_eq_true a.enabled ▸ Bool.of_not_eq_true he
        rw [hpa]
        simp only [Bool.false_eq_true, if_neg]
        rw [napPoolLoop, ha]
        simp only [if_neg he]
        exact ih acc

theorem migsRefs_congr {m1 m2 : Manager}
    (h : m1.migs.map (fun mi => mi.config) = m2.migs.map (fun mi => mi.config)) :
    migsRefs m1 = migsRefs m2 := by
  unfold migsRefs
  have h1 : m1.migs.map (fun mi => mi.config.gceRef) =
      (m1.migs.map (fun mi => mi.config)).map (fun c => c.gceRef) := by
    rw [List.map_map]
    rfl
  have h2 : m2.migs.map (fun mi => mi.config.gceRef) =
      (m2.migs.map (fun mi => mi.config)).map (fun c => c.gceRef) := by
    rw [List.map_map]
    rfl
  rw [h1, h2, h]

theorem listedBy_congr (cloud : Cloud) {l1 l2 : List MigInformation}
    (h : l1.map (fun mi => mi.config) = l2.map (fun mi => mi.config))
    (inst : GceRef) :
    listedBy cloud l1 inst ↔ listedBy cloud l2 inst := by
  unfold listedBy
  constructor
  · rintro ⟨mi, hmi, l, hl, hin⟩
    have hc : mi.config ∈ l2.map (fun mi => mi.config) := by
      rw [← h]
      exact List.mem_map.mpr ⟨mi, hmi, rfl⟩
    obtain ⟨mj, hmj, hce⟩ := List.mem_map.mp hc
    refine ⟨mj, hmj, l, ?_, hin⟩
    rw [hce]
    exact hl
  · rintro ⟨mi, hmi, l, hl, hin⟩
    have hc : mi.config ∈ l1.map (fun mi => mi.config) := by
      rw [h]
      exact List.mem_map.mpr ⟨mi, hmi, rfl⟩
    obtain ⟨mj, hmj, hce⟩ := List.mem_map.mp hc
    refine ⟨mj, hmj, l, ?_, hin⟩
    rw [hce]
    exact hl

theorem seenAny_mem (seen : List GceRef) (x : GceRef) :
    seen.any (fun r => r = x) = true ↔ x ∈ seen := by
  simp [List.any_eq_true]

end Gce

namespace Gce

/-- Claim C6: in the autoprovisioning reconcile pass, pools that are not
autoscaled (including the logged autoprovisioned-but-not-autoscaled
anomaly) are skipped entirely — the pass equals the pass over the
autoscaled pools only; on success, the registered identities are exactly
the groups derived one-per-backing-URL from the listing (without
duplicates, given a duplicate-free starting registry), every
previously-registered group absent from the listing having been
unregistered; and either nothing changed and the manager is untouched, or
the ownership cache was regenerated once against the cloud listings. -/
theorem fetchAllNodePoolsNap_spec (cloud : Cloud) (m : Manager) :
    (∀ (pools : List NodePool) (acc : NapAcc),
      napPoolLoop cloud pools acc =
        napPoolLoop cloud (pools.filter poolAutoscaled) acc) ∧
    (∀ (pools : List NodePool) (m1 : Manager),
      cloud.listNodePools = some pools →
      fetchAllNodePoolsGkeNapImpl cloud m = (m1, true) →
      (migsRefs m).Nodup →
      ((migsRefs m1).Nodup ∧
       (∀ r, r ∈ migsRefs m1 ↔ r ∈ derivedRefs cloud pools) ∧
       (m1 = m ∨ ∀ inst, (cacheGet m1.migCache inst).isSome = true ↔
          listedBy cloud m1.migs inst))) := by
  constructor
  · exact napPoolLoop_skip cloud
  · intro pools m1 hlist hrun hnodup
    unfold fetchAllNodePoolsGkeNapImpl at hrun
    rw [hlist] at hrun
    simp only [] at hrun
    by_cases hok : (napPoolLoop cloud pools
        { mgr := m, seen := [], changed := false, ok := true }).ok = true
    · rw [if_pos hok] at hrun
      obtain ⟨_, hseen0, hrefs, hnodup2, hmid⟩ :=
        napPoolLoop_spec cloud pools _ hok
      have hseen : (napPoolLoop cloud pools
          { mgr := m, seen := [], changed := false, ok := true }).seen =
          derivedRefs cloud pools := by
        rw [hseen0]
        rfl
      obtain ⟨hpm, hpid, hpc⟩ := napUnregisterPhase_migs
        (napPoolLoop cloud pools
          { mgr := m, seen := [], changed := false, ok := true }).seen
        (napPoolLoop cloud pools
          { mgr := m, seen := [], changed := false, ok := true }).mgr.migs
        (napPoolLoop cloud pools
          { mgr := m, seen := [], changed := false, ok := true }).mgr
        (napPoolLoop cloud pools
          { mgr := m, seen := [], changed := false, ok := true }).changed
      have hur1 : (napUnregisterPhase
          (napPoolLoop cloud pools
            { mgr := m, seen := [], changed := false, ok := true }).seen
          (napPoolLoop cloud pools
            { mgr := m, seen := [], changed := false, ok := true }).mgr.migs
          (napPoolLoop cloud pools
            { mgr := m, seen := [], changed := false, ok := true }).mgr
          (napPoolLoop cloud pools
            { mgr := m, seen := [], changed := false, ok := true }).changed).1.migs =
          (napPoolLoop cloud pools
            { mgr := m, seen := [], changed := false, ok := true }).mgr.migs.filter
            (fun mi => (napPoolLoop cloud pools
              { mgr := m, seen := [], changed := false, ok := true }).seen.any
                (fun r => r = mi.config.gceRef)) := by
        rw [hpm]
        apply List.filter_congr
        intro x hx
        have hself : (napPoolLoop cloud pools
            { mgr := m, seen := [], changed := false, ok := true }).mgr.migs.any
            (fun mj => mj.config.gceRef = x.config.gceRef) = true :=
          List.any_eq_true.mpr ⟨x, hx, by simp⟩
        simp [hself]
      by_cases hch : (napUnregisterPhase
          (napPoolLoop cloud pools
            { mgr := m, seen := [], changed := false, ok := true }).seen
          (napPoolLoop cloud pools
            { mgr := m, seen := [], changed := false, ok := true }).mgr.migs
          (napPoolLoop cloud pools
            { mgr := m, seen := [], changed := false, ok := true }).mgr
          (napPoolLoop cloud pools
            { mgr := m, seen := [], changed := false, ok := true }).changed).2 = true
      · rw [if_pos hch] at hrun
        obtain ⟨hid, hcfg, hchar⟩ := regenerateCache_char cloud _ m1 hrun
        have hrefs1 : migsRefs m1 = migsRefs (napUnregisterPhase
            (napPoolLoop cloud pools
              { mgr := m, seen := [], changed := false, ok := true }).seen
            (napPoolLoop cloud pools
              { mgr := m, seen := [], changed := false, ok := true }).mgr.migs
            (napPoolLoop cloud pools
              { mgr := m, seen := [], changed := false, ok := true }).mgr
            (napPoolLoop cloud pools
              { mgr := m, seen := [], changed := false, ok := true }).changed).1 :=
          migsRefs_congr hcfg
        have hmem : ∀ r, r ∈ migsRefs m1 ↔
            (r ∈ migsRefs (napPoolLoop cloud pools
              { mgr := m, seen := [], changed := false, ok := true }).mgr ∧
             r ∈ derivedRefs cloud pools) := by
          intro r
          rw [hrefs1]
          unfold migsRefs
          rw [hur1]
          constructor
          · intro hr
            obtain ⟨mi, hmi, href⟩ := List.mem_map.mp hr
            have hmf := List.mem_filter.mp hmi
            refine ⟨List.mem_map.mpr ⟨mi, hmf.1, href⟩, ?_⟩
            have hin := (seenAny_mem _ _).mp hmf.2
            rw [hseen] at hin
            rw [← href]
            exact hin
          · rintro ⟨hr1, hr2⟩
            obtain ⟨mi, hmi, href⟩ := List.mem_map.mp hr1
            refine List.mem_map.mpr ⟨mi, List.mem_filter.mpr ⟨hmi, ?_⟩, href⟩
            refine (seenAny_mem _ _).mpr ?_
            rw [hseen, href]
            exact hr2
        refine ⟨?_, ?_, ?_⟩
        · rw [hrefs1]
          unfold migsRefs
          rw [hur1]
          have hsub : List.Sublist
              (((napPoolLoop cloud pools
                { mgr := m, seen := [], changed := false, ok := true }).mgr.migs.filter
                (fun mi => (napPoolLoop cloud pools
                  { mgr := m, seen := [], changed := false, ok := true }).seen.any
                    (fun r => r = mi.config.gceRef))).map
                  (fun mi => mi.config.gceRef))
              ((napPoolLoop cloud pools
                { mgr := m, seen := [], changed := false, ok := true }).mgr.migs.map
                (fun mi => mi.config.gceRef)) :=
            List.Sublist.map _ (List.filter_sublist _)
          exact (hnodup2 hnodup).sublist hsub
        · intro r
          rw [hmem r, hrefs r]
          constructor
          · rintro ⟨_, hd⟩
            exact hd
          · intro hd
            exact ⟨Or.inr hd, hd⟩
        · refine Or.inr ?_
          intro inst
          rw [(hchar inst).1]
          exact (listedBy_congr cloud hcfg inst).symm
      · rw [if_neg hch] at hrun
        injection hrun with hm1 _
        obtain ⟨hur_eq, hchacc, hall⟩ := napUnregisterPhase_changed_false _ _ _ _
          (by simpa using hch)
        obtain ⟨hmgr_eq, _, hder⟩ :=
          napPoolLoop_changed_false cloud pools _ hok hchacc
        have hm1m : m1 = m := by
          rw [← hm1, hur_eq, hmgr_eq]
        refine ⟨by rw [hm1m]; exact hnodup, ?_, Or.inl hm1m⟩
        intro r
        rw [hm1m]
        constructor
        · intro hr
          obtain ⟨mi, hmi, href⟩ := List.mem_map.mp hr
          have hmi2 : mi ∈ (napPoolLoop cloud pools
              { mgr := m, seen := [], changed := false, ok := true }).mgr.migs := by
            rw [hmgr_eq]
            exact hmi
          have hs := hall mi hmi2
          have hin := (seenAny_mem _ _).mp hs
          rw [hseen] at hin
          rw [← href]
          exact hin
        · intro hd
          exact hder r hd
    · rw [if_neg hok] at hrun
      injection hrun with _ hfalse
      cases hfalse

end Gce

namespace Gce

/-- Witness for claim C6: reconciling the fixture cloud from an empty
registry registers exactly the derived group `exRef` (and not `exRef2`)
and rebuilds the cache. -/
theorem fetchAllNodePoolsNap_spec_witness :
    (migsRefs exManagerRebuilt).Nodup ∧
    (exRef ∈ migsRefs exManagerRebuilt ↔ exRef ∈ derivedRefs exCloud exNodePools) ∧
    (exRef2 ∈ migsRefs exManagerRebuilt ↔ exRef2 ∈ derivedRefs exCloud exNodePools) := by
  have hrun : fetchAllNodePoolsGkeNapImpl exCloud exManager =
      (exManagerRebuilt, true) := rfl
  have h := (fetchAllNodePoolsNap_spec exCloud exManager).2 exNodePools
    exManagerRebuilt rfl hrun (by decide)
  exact ⟨h.1, h.2.1 exRef, h.2.1 exRef2⟩

end Gce
